import Mathlib

/-!
Verification development for the annotation-driven ontology-graph pruning
engine.  The Python sources are shallowly embedded: graphs become explicit
structures of node and edge lists with attribute association lists, Python
exceptions become an explicit error type threaded through `Except`, and the
unbounded retry recursion of the orchestrator becomes a fuel-indexed
function.  Layer values (breadth-first distances from a category root) are
modelled as natural numbers.
-/

set_option maxRecDepth 10000

/-- Node identifiers are strings (ontology term identifiers). -/
abbrev Node := String

/-- Value of the UniprotID node attribute: either a list of real external
identifiers, the transit sentinel string (written pruchozi in the source),
or the boundary sentinel string (written lowest in the source). -/
inductive UniVal where
  | ids (l : List String)
  | transit
  | lowest
  deriving DecidableEq, Repr

/-- Python exceptions observable from the embedded code:
KeyError from a missing dictionary key, AttributeError from calling a list
method on a sentinel string, and GraphCleaningDFSException carrying the DFS
start node and the ontology (fields DFSnode and BFSnode in the source). -/
inductive PyErr where
  | keyError
  | attrError
  | dfs (DFSnode : Node) (BFSnode : String)
  deriving DecidableEq, Repr

/-- Directed graph in the style of networkx: node list in insertion order,
edge list in insertion order (an edge (u, v) points from u to v), plus the
two node attributes the cleaning engine reads and writes: the per-ontology
layer attribute (key Layer_of followed by the ontology identifier in the
source) and the UniprotID attribute. -/
structure PyGraph where
  nodes : List Node
  edges : List (Node × Node)
  layers : List ((Node × String) × Nat)
  uniprot : List (Node × UniVal)
  deriving DecidableEq, Repr

/-- Lookup in the layer attribute association list. -/
def lookupLayer : List ((Node × String) × Nat) → Node → String → Option Nat
  | [], _, _ => none
  | (k, v) :: rest, n, o => if k = (n, o) then some v else lookupLayer rest n o

/-- Lookup in the UniprotID attribute association list. -/
def lookupUni : List (Node × UniVal) → Node → Option UniVal
  | [], _ => none
  | (k, v) :: rest, n => if k = n then some v else lookupUni rest n

/-- Update or insert in the layer attribute association list, preserving
entry order, the way a Python dict assignment does. -/
def updLayers : List ((Node × String) × Nat) → Node → String → Nat → List ((Node × String) × Nat)
  | [], n, o, v => [((n, o), v)]
  | (k, w) :: rest, n, o, v =>
      if k = (n, o) then (k, v) :: rest else (k, w) :: updLayers rest n o v

/-- Update or insert in the UniprotID attribute association list. -/
def updUni : List (Node × UniVal) → Node → UniVal → List (Node × UniVal)
  | [], n, v => [(n, v)]
  | (k, w) :: rest, n, v =>
      if k = n then (k, v) :: rest else (k, w) :: updUni rest n v

/-- Layer attribute of a node for an ontology, as graph.nodes with the
Layer_of key reads it. -/
def PyGraph.layerOf (g : PyGraph) (ontology : String) (n : Node) : Option Nat :=
  lookupLayer g.layers n ontology

/-- UniprotID attribute of a node, if present. -/
def PyGraph.uniOf (g : PyGraph) (n : Node) : Option UniVal :=
  lookupUni g.uniprot n

/-- Set the layer attribute of a node. -/
def PyGraph.setLayer (g : PyGraph) (n : Node) (ontology : String) (v : Nat) : PyGraph :=
  { g with layers := updLayers g.layers n ontology v }

/-- Set the UniprotID attribute of a node. -/
def PyGraph.setUni (g : PyGraph) (n : Node) (v : UniVal) : PyGraph :=
  { g with uniprot := updUni g.uniprot n v }

/-- Successors of a node: targets of its outgoing edges, in edge insertion
order, as graph.neighbors yields them. -/
def PyGraph.succs (g : PyGraph) (n : Node) : List Node :=
  (g.edges.filter fun e => decide (e.1 = n)).map (·.2)

/-- Predecessors of a node: sources of its incoming edges, as the source
computes via graph.reverse().neighbors. -/
def PyGraph.preds (g : PyGraph) (n : Node) : List Node :=
  (g.edges.filter fun e => decide (e.2 = n)).map (·.1)

/-- Number of incoming edges, as graph.in_degree returns it. -/
def PyGraph.inDegree (g : PyGraph) (n : Node) : Nat :=
  (g.edges.filter fun e => decide (e.2 = n)).length

/-- Remove a node together with its incident edges.  Attribute entries are
kept; they are never consulted for a removed node. -/
def PyGraph.removeNode (g : PyGraph) (n : Node) : PyGraph :=
  { g with
    nodes := g.nodes.filter fun m => decide (m ≠ n)
    edges := g.edges.filter fun e => decide (e.1 ≠ n ∧ e.2 ≠ n) }

/-- Add a node if not already present (networkx add_node). -/
def PyGraph.addNode (g : PyGraph) (n : Node) : PyGraph :=
  if n ∈ g.nodes then g else { g with nodes := g.nodes ++ [n] }

/-- Add a directed edge, adding missing endpoints, without duplicating an
existing edge (networkx DiGraph add_edge). -/
def PyGraph.addEdge (g : PyGraph) (e : Node × Node) : PyGraph :=
  let g := (g.addNode e.1).addNode e.2
  if e ∈ g.edges then g else { g with edges := g.edges ++ [e] }

/-- Reverse every edge, keeping nodes and attributes (networkx reverse). -/
def PyGraph.reverse (g : PyGraph) : PyGraph :=
  { g with edges := g.edges.map fun e => (e.2, e.1) }

/-! ## find_nodes.py -/

/-- Embedding of find_nodes_at_distance: keep the candidates that are still
nodes of the graph, carry the layer attribute for the ontology, and whose
layer equals the target distance.  Total by construction. -/
def find_nodes_at_distance (ontology : String) (dst : Nat) (nodes : List Node)
    (graph : PyGraph) : List Node :=
  nodes.filter fun node =>
    decide (node ∈ graph.nodes) &&
      match graph.layerOf ontology node with
      | some l => decide (l = dst)
      | none => false

/-- Outgoing edges of a node, in edge insertion order. -/
def outEdges (g : PyGraph) (n : Node) : List (Node × Node) :=
  g.edges.filter fun e => decide (e.1 = n)

/-- Worker for the edge depth-first traversal: a stack of pending edges and
the list of edges already yielded (accumulated in reverse).  Each edge is
yielded at most once, as networkx edge_dfs does. -/
def edgeDfsAux (g : PyGraph) : Nat → List (Node × Node) → List (Node × Node) → List (Node × Node)
  | 0, _, visited => visited.reverse
  | _ + 1, [], visited => visited.reverse
  | fuel + 1, e :: stack, visited =>
      if e ∈ visited then edgeDfsAux g fuel stack visited
      else edgeDfsAux g fuel (outEdges g e.2 ++ stack) (e :: visited)

/-- Edges yielded by networkx edge_dfs from a source node, in traversal
order.  The fuel bounds the number of worker steps: at most the initial
stack plus one push batch per yielded edge. -/
def edgeDfs (g : PyGraph) (source : Node) : List (Node × Node) :=
  edgeDfsAux g (g.edges.length * g.edges.length + g.edges.length + 1) (outEdges g source) []

/-- Loop body of find_farthest_node: advance to the edge target when its
layer strictly exceeds the layer of the farthest node so far.  A target
lacking the layer attribute raises the disconnection exception carrying
the start node and the ontology; a missing layer on the current farthest
node (possible only when the start node itself lacks the attribute) is a
plain KeyError. -/
def farthest_step (ontology : String) (start_node : Node) (graph : PyGraph)
    (acc : Except PyErr Node) (edge : Node × Node) : Except PyErr Node := do
  let farthest ← acc
  let target := edge.2
  match graph.layerOf ontology target with
  | none => throw (PyErr.dfs start_node ontology)
  | some lt =>
    match graph.layerOf ontology farthest with
    | none => throw PyErr.keyError
    | some lf => pure (if lt > lf then target else farthest)

/-- Embedding of find_farthest_node: fold over the DFS edges, tracking the
node with the strictly greatest layer seen so far. -/
def find_farthest_node (ontology : String) (start_node : Node) (graph : PyGraph) :
    Except PyErr Node :=
  (edgeDfs graph start_node).foldl (farthest_step ontology start_node graph) (pure start_node)

/-- One node of the mark_lowest_nodes scan for one ontology: when the node
has the layer attribute and a UniprotID different from the transit
sentinel, run the DFS from it and mark the farthest node with the boundary
sentinel if that node has no UniprotID of its own.  The returned trace
records the nodes a DFS was started from; an exception carries the graph as
mutated so far. -/
def mark_lowest_step (ontology : String) (st : PyGraph × List (String × Node)) (node : Node) :
    Except (PyErr × PyGraph) (PyGraph × List (String × Node)) :=
  let (g, tr) := st
  if (g.layerOf ontology node).isSome &&
      (match g.uniOf node with
       | some v => decide (v ≠ UniVal.transit)
       | none => false) then
    match find_farthest_node ontology node g with
    | Except.error e => throw (e, g)
    | Except.ok far =>
        let g2 := if g.uniOf far = none then g.setUni far UniVal.lowest else g
        pure (g2, tr ++ [(ontology, node)])
  else pure (g, tr)

/-- mark_lowest_nodes restricted to one ontology: scan the node list of the
graph in order, threading attribute updates. -/
def mark_lowest_one (ontology : String) (g : PyGraph) (tr : List (String × Node)) :
    Except (PyErr × PyGraph) (PyGraph × List (String × Node)) :=
  g.nodes.foldlM (mark_lowest_step ontology) (g, tr)

/-- Embedding of mark_lowest_nodes over the pivot list, additionally
returning the trace of (ontology, node) pairs a DFS was started from. -/
def mark_lowest_nodes (pivots : List String) (g : PyGraph) :
    Except (PyErr × PyGraph) (PyGraph × List (String × Node)) :=
  pivots.foldlM (fun st ontology => mark_lowest_one ontology st.1 st.2) (g, [])

/-! ## prune_layers.py -/

/-- Embedding of has_uniprot_id: presence of the UniprotID key. -/
def has_uniprot_id (node : Node) (graph : PyGraph) : Bool :=
  (graph.uniOf node).isSome

/-- Embedding of uniprot_id_in_layer: does any node of the layer carry the
UniprotID key.  The thread pool of the source evaluates a pure predicate;
the embedding is the corresponding map-and-any. -/
def uniprot_id_in_layer (nodes : List Node) (graph : PyGraph) : Bool :=
  (nodes.map fun node => has_uniprot_id node graph).any fun b => b

/-- Worker for no_lower_layer_edge over the predecessor list.  The source
reads the layer of the node and then of the predecessor on each iteration;
a missing key is a KeyError. -/
def nlleAux (g : PyGraph) (ontology : String) (node : Node) : List Node → Except PyErr Bool
  | [] => pure true
  | p :: rest =>
      match g.layerOf ontology node with
      | none => throw PyErr.keyError
      | some a =>
        match g.layerOf ontology p with
        | none => throw PyErr.keyError
        | some b => if a ≥ b then pure false else nlleAux g ontology node rest

/-- Embedding of no_lower_layer_edge: true when every edge into the node
originates at a strictly greater layer. -/
def no_lower_layer_edge (node : Node) (ontology : String) (graph : PyGraph) :
    Except PyErr Bool :=
  nlleAux graph ontology node (graph.preds node)

/-- Per-neighbor body of add_leaves: append the neighbor when it is not
yet tracked as a leaf and passes the no_lower_layer_edge check. -/
def add_leaf_step (ontology : String) (graph : PyGraph) (lv : List Node) (neighbor : Node) :
    Except PyErr (List Node) := do
  if neighbor ∈ lv then pure lv
  else if (← no_lower_layer_edge neighbor ontology graph) then pure (lv ++ [neighbor])
  else pure lv

/-- Embedding of add_leaves: append each graph neighbor of the node, first
successors then predecessors, through add_leaf_step. -/
def add_leaves (leaves : List Node) (node : Node) (ontology : String) (graph : PyGraph) :
    Except PyErr (List Node) := do
  let l1 ← (graph.succs node).foldlM (add_leaf_step ontology graph) leaves
  (graph.preds node).foldlM (add_leaf_step ontology graph) l1

/-- Per-node body of a layer-removal batch: extend the leaf frontier with
the neighbors of the node, drop the node from the frontier if present, and
delete it from the graph. -/
def prune_node_step (ontology : String) (st : PyGraph × List Node) (node : Node) :
    Except PyErr (PyGraph × List Node) := do
  let (g, leaves) := st
  let leaves2 ← add_leaves leaves node ontology g
  let leaves3 := if node ∈ leaves2 then leaves2.erase node else leaves2
  pure (g.removeNode node, leaves3)

/-- One layer-removal batch of prune_layers_without_uniprot: process each
node of the layer in order through prune_node_step. -/
def prune_batch (ontology : String) (nodes : List Node) (g : PyGraph) (leaves : List Node) :
    Except PyErr (PyGraph × List Node) :=
  nodes.foldlM (prune_node_step ontology) (g, leaves)

/-- Descending-layer loop of prune_layers_without_uniprot.  The parameter
origMax is the stored maximum distance, returned unchanged when the loop
runs past layer 0 without finding a UniprotID. -/
def pruneFrom (ontology : String) (origMax : Nat) :
    Nat → PyGraph → List Node → Except PyErr (PyGraph × List Node × Nat)
  | dst, g, leaves =>
    let nodes := find_nodes_at_distance ontology dst g.nodes g
    if uniprot_id_in_layer nodes g then pure (g, leaves, dst)
    else do
      let (g2, leaves2) ← prune_batch ontology nodes g leaves
      match dst with
      | 0 => pure (g2, leaves2, origMax)
      | d + 1 => pruneFrom ontology origMax d g2 leaves2

/-- Embedding of prune_layers_without_uniprot: scan layers from max_dst
down to 0, deleting every layer without a UniprotID; stop at the first
layer carrying one and return it as the new stored maximum. -/
def prune_layers_without_uniprot (ontology : String) (graph : PyGraph) (max_dst : Nat)
    (leaves : List Node) : Except PyErr (PyGraph × List Node × Nat) :=
  pruneFrom ontology max_dst max_dst graph leaves

/-! ## prune_leafs.py -/

/-- Embedding of to_remove: the referencing nodes form a subset of the
removable set together with the leaf being removed. -/
def to_remove (removable : List Node) (neighbors : List Node) (leaf : Node) : Bool :=
  neighbors.all fun n => decide (n ∈ removable) || decide (n = leaf)

/-- Embedding of update_dst: when the neighbor sits at a layer at least the
current distance, raise the updated flag and adopt that layer as the new
distance. -/
def update_dst (update_flag : Bool) (neighbor : Node) (dst : Nat) (ontology : String)
    (graph : PyGraph) : Except PyErr (Bool × Nat) :=
  match graph.layerOf ontology neighbor with
  | none => throw PyErr.keyError
  | some l => if l ≥ dst then pure (true, l) else pure (update_flag, dst)

/-- One neighbor of a popped leaf inside process_leaves: a neighbor with
more than one incoming edge is promoted to the leaf list only when it is
not tracked already and to_remove holds of its referencing nodes; a
neighbor with at most one incoming edge is promoted unconditionally.  The
referencing nodes are read from the threaded reverse graph. -/
def process_neighbor (removable : List Node) (leaf : Node) (ontology : String)
    (g rg : PyGraph) (st : List Node × Bool × Nat) (neighbor : Node) :
    Except PyErr (List Node × Bool × Nat) :=
  let (leaves, updated, dst) := st
  if g.inDegree neighbor > 1 then
    if neighbor ∉ leaves && to_remove removable (rg.succs neighbor) leaf then do
      let (u, d) ← update_dst updated neighbor dst ontology g
      pure (leaves ++ [neighbor], u, d)
    else pure st
  else do
    let (u, d) ← update_dst updated neighbor dst ontology g
    pure (leaves ++ [neighbor], u, d)

/-- Worker for process_leaves: the first argument is the removable list in
pop order, that is reversed, since list.pop of the source takes the last
element.  Pop the head, process the successors of the popped leaf, then
delete it from both graph views and from the leaf list.  The remaining
removable list handed to each neighbor check is restored to source order. -/
def process_leaves_aux (ontology : String) :
    List Node → List Node → Bool → Nat → PyGraph → PyGraph →
    Except PyErr (List Node × Bool × Nat × PyGraph × PyGraph)
  | [], leaves, updated, dst, g, rg => pure (leaves, updated, dst, g, rg)
  | leaf :: stack, leaves, updated, dst, g, rg => do
      let rest := stack.reverse
      let (leaves2, u2, d2) ←
        (g.succs leaf).foldlM (process_neighbor rest leaf ontology g rg) (leaves, updated, dst)
      let g2 := g.removeNode leaf
      let rg2 := rg.removeNode leaf
      let leaves3 := if leaf ∈ leaves2 then leaves2.erase leaf else leaves2
      process_leaves_aux ontology stack leaves3 u2 d2 g2 rg2

/-- Embedding of process_leaves: consume the removable list from its last
element backwards, then decrement the distance when the updated flag was
never raised. -/
def process_leaves (removable leaves : List Node) (ontology : String) (dst : Nat)
    (g rg : PyGraph) : Except PyErr (List Node × Nat × PyGraph × PyGraph) := do
  let (leaves2, updated, dst2, g2, rg2) ←
    process_leaves_aux ontology removable.reverse leaves false dst g rg
  pure (leaves2, if updated then dst2 else dst2 - 1, g2, rg2)

/-- Removable selection of clean_graph_layer: leaves at the current
distance that carry no UniprotID, without duplicates. -/
def removable_at (lid : List Node) (g : PyGraph) : List Node :=
  lid.foldl
    (fun rm leaf =>
      if (g.uniOf leaf).isSome then rm
      else if leaf ∈ rm then rm else rm ++ [leaf])
    []

/-- Fuelled while-loop of clean_graph_layer.  The distance can be pushed
upward by process_leaves, so the loop carries explicit fuel; exhaustion
returns none (the source would keep iterating). -/
def clean_layer_loop (ontology : String) :
    Nat → Nat → List Node → PyGraph → PyGraph →
    Except PyErr (Option (PyGraph × List Node))
  | 0, _, _, _, _ => pure none
  | _ + 1, 0, leaves, g, _ => pure (some (g, leaves))
  | fuel + 1, dst + 1, leaves, g, rg => do
      let lid := find_nodes_at_distance ontology (dst + 1) leaves g
      let removable := removable_at lid g
      let (leaves2, dst2, g2, rg2) ← process_leaves removable leaves ontology (dst + 1) g rg
      clean_layer_loop ontology fuel dst2 leaves2 g2 rg2

/-- Embedding of clean_graph_layer, with fuel for the while-loop. -/
def clean_graph_layer (fuel : Nat) (ontology : String) (leaves : List Node) (max_dst : Nat)
    (graph reverse_graph : PyGraph) : Except PyErr (Option (PyGraph × List Node)) :=
  clean_layer_loop ontology fuel max_dst leaves graph reverse_graph

/-- Embedding of clean_all_layers: per ontology, take the reverse view and
run the layer cleaning, threading the per-ontology graph and leaf maps. -/
def clean_all_layers (fuel : Nat) (graph_dict : String → PyGraph) (leaves : String → List Node)
    (max_dst : String → Nat) (ontologies : List String) :
    Except PyErr (Option ((String → PyGraph) × (String → List Node))) :=
  ontologies.foldlM
    (fun acc ontology => do
      match acc with
      | none => pure none
      | some (gd, lv) =>
        let rg := (gd ontology).reverse
        match (← clean_graph_layer fuel ontology (lv ontology) (max_dst ontology) (gd ontology) rg) with
        | none => pure none
        | some (g2, l2) =>
            pure (some (fun o => if o = ontology then g2 else gd o,
                        fun o => if o = ontology then l2 else lv o)))
    (some (graph_dict, leaves))

/-! ## add_uniprot_to_node.py -/

/-- Python substring membership test for strings, as the in operator. -/
def pyInStr (sub s : String) : Bool :=
  (s.splitOn sub).length > 1

/-- Association lookup for string-keyed lists, as Python dict access. -/
def lookupKey {α : Type} : List (String × α) → String → Option α
  | [], _ => none
  | (k, v) :: rest, n => if k = n then some v else lookupKey rest n

/-- Embedding of find_matching_nodes: graph nodes that occur among the GO
terms recorded for the identifier. -/
def find_matching_nodes (graph : PyGraph) (uniprot_to_go : List (String × List String))
    (uniprot_id : String) : List Node :=
  let go_terms := (lookupKey uniprot_to_go uniprot_id).getD []
  graph.nodes.filter fun node => decide (node ∈ go_terms)

/-- Embedding of map_uniprot_to_graph: record the matched nodes of each
identifier, then attach the identifier to each matched node.  A node whose
UniprotID already holds a list is extended only when the identifier is
missing; on a sentinel string the source tests substring membership and
calling append on the string raises AttributeError. -/
def map_uniprot_to_graph (uniprot_to_go : List (String × List String)) (graph : PyGraph) :
    Except PyErr (List (String × List Node) × PyGraph) := do
  let selected := uniprot_to_go.foldl
    (fun acc p =>
      let ms := find_matching_nodes graph uniprot_to_go p.1
      if ms ≠ [] then acc ++ [(p.1, ms)] else acc)
    []
  let graph2 ← uniprot_to_go.foldlM
    (fun g p =>
      match lookupKey selected p.1 with
      | none => pure g
      | some ms => ms.foldlM
          (fun g node =>
            match g.uniOf node with
            | none => pure (g.setUni node (UniVal.ids [p.1]))
            | some (UniVal.ids l) =>
                if p.1 ∈ l then pure g else pure (g.setUni node (UniVal.ids (l ++ [p.1])))
            | some UniVal.transit =>
                if pyInStr p.1 "pruchozi" then pure g else throw PyErr.attrError
            | some UniVal.lowest =>
                if pyInStr p.1 "lowest" then pure g else throw PyErr.attrError)
          g)
    graph
  pure (selected, graph2)

/-! ## Layering Oracle -/

/-- Breadth-first worker: visited nodes with their distances in discovery
order, the current frontier, and the current distance. -/
def bfsAux (g : PyGraph) : Nat → List (Node × Nat) → List Node → Nat → List (Node × Nat)
  | 0, visited, _, _ => visited
  | fuel + 1, visited, frontier, d =>
      let next := frontier.foldl
        (fun nf n =>
          (g.succs n).foldl
            (fun nf m =>
              if (visited.any fun p => decide (p.1 = m)) || m ∈ nf then nf else nf ++ [m])
            nf)
        []
      match next with
      | [] => visited
      | _ => bfsAux g fuel (visited ++ next.map fun m => (m, d + 1)) next (d + 1)

/-- Nodes reachable from a source with their breadth-first distances, in
discovery order; empty when the source is not a node of the graph. -/
def bfsLayers (g : PyGraph) (src : Node) : List (Node × Nat) :=
  if src ∈ g.nodes then bfsAux g g.nodes.length [(src, 0)] [src] 0 else []

/-- Modelled from the spec: get_leaves_by_ontology is imported from
add_layers_to_node.py, a module of this repository that is not present
under src/.  The spec (sections 2 and 6) describes it as the Layering
Oracle: for each category root it computes a per-node integer distance
from the root over the reversed graph it is given, pre-populates the layer
attribute on every reachable node, and reports the maximum layer value,
the leaf set, and the reachable node set of each category.  Leaves are
taken as the reachable nodes with no outgoing edge in the given reversed
graph, that is the childless nodes of the original orientation. -/
def get_leaves_by_ontology (ontologies : List String) (graph_reverse : PyGraph) :
    (String → Nat) × (String → List Node) × (String → List Node) × PyGraph :=
  ontologies.foldl
    (fun st ontology =>
      let (maxd, lvs, subg, g) := st
      let bl := bfsLayers g ontology
      let g2 := bl.foldl (fun h p => h.setLayer p.1 ontology p.2) g
      let m := bl.foldl (fun acc p => max acc p.2) 0
      let leaves := (bl.map (·.1)).filter fun n => decide (g.succs n = [])
      (fun o => if o = ontology then m else maxd o,
       fun o => if o = ontology then leaves else lvs o,
       fun o => if o = ontology then bl.map (·.1) else subg o,
       g2))
    (fun _ => 0, fun _ => [], fun _ => [], graph_reverse)

/-! ## get_clean_graph and the orchestrator -/

/-- Edges of the induced subgraph on a node set. -/
def subgraph_edges (g : PyGraph) (s : List Node) : List (Node × Node) :=
  g.edges.filter fun e => decide (e.1 ∈ s ∧ e.2 ∈ s)

/-- Fresh graph built by add_edges_from: nodes appear in edge order, so a
node of the subgraph incident to no edge is dropped. -/
def graph_from_edges (es : List (Node × Node)) : PyGraph :=
  es.foldl (fun g e => g.addEdge e) ⟨[], [], [], []⟩

/-- Attribute copy of get_clean_graph: every node of the fresh graph
receives the attributes it has in the source graph. -/
def copy_attrs (clean : PyGraph) (graph : PyGraph) : PyGraph :=
  { clean with
    layers := graph.layers.filter fun p => decide (p.1.1 ∈ clean.nodes)
    uniprot := graph.uniprot.filter fun p => decide (p.1 ∈ clean.nodes) }

/-- Embedding of get_clean_graph: per ontology, rebuild the working copy of
the reachable subgraph from its edges, copy the attributes, and run the
outer-layer pruner, threading the per-ontology maps. -/
def get_clean_graph (leaves : String → List Node) (max_dst : String → Nat)
    (subgraph_ontology : String → List Node) (ontologies : List String) (graph : PyGraph) :
    Except PyErr ((String → PyGraph) × (String → List Node) × (String → Nat)) :=
  ontologies.foldlM
    (fun st ontology => do
      let (cgs, lvs, maxd) := st
      let clean0 := graph_from_edges (subgraph_edges graph (subgraph_ontology ontology))
      let clean := copy_attrs clean0 graph
      let (g2, l2, m2) ← prune_layers_without_uniprot ontology clean (maxd ontology) (lvs ontology)
      pure ((fun o => if o = ontology then g2 else cgs o),
            (fun o => if o = ontology then l2 else lvs o),
            (fun o => if o = ontology then m2 else maxd o)))
    ((fun _ => (⟨[], [], [], []⟩ : PyGraph)), leaves, max_dst)

/-- Embedding of connect_pivot: add the synthetic connector node, an edge
from every pivot to it, and make it the only pivot. -/
def connect_pivot (pivots : List Node) (graph : PyGraph) : PyGraph × List Node :=
  let g := graph.addNode "new_connecting_node"
  let g2 := pivots.foldl (fun h p => h.addEdge (p, "new_connecting_node")) g
  (g2, ["new_connecting_node"])

/-- Result bundle of a successful cleaning run. -/
structure CleanResult where
  clean_graphs : String → PyGraph
  leavesMap : String → List Node
  selected_nodes : List (String × List Node)
  max_dstMap : String → Nat
  subgraphsMap : String → List Node

/-- One attempt of the try-block of clean_ontology_graph: annotation
mapping, reversal, the Layering Oracle, boundary marking, outer-layer
pruning, leaf pruning.  An error carries the graph as mutated up to the
point of the raise, the object the except-branch of the source repairs.
The inner fuel bounds the leaf-pruning while-loop; ok none reports its
exhaustion. -/
def clean_attempt (uniprot_to_go : List (String × List String)) (graph : PyGraph)
    (ontologies : List String) (fuel : Nat) : Except (PyErr × PyGraph) (Option CleanResult) :=
  match map_uniprot_to_graph uniprot_to_go graph with
  | Except.error e => Except.error (e, graph)
  | Except.ok (selected, g1) =>
    let gr := g1.reverse
    let (max_dst, leaves, subgraphs, gr2) := get_leaves_by_ontology ontologies gr
    let g2 := gr2.reverse
    match mark_lowest_nodes ontologies g2 with
    | Except.error eg => Except.error eg
    | Except.ok (g3, _) =>
      match get_clean_graph leaves max_dst subgraphs ontologies g3 with
      | Except.error e => Except.error (e, g3)
      | Except.ok (cgs, lv2, md2) =>
        match clean_all_layers fuel cgs lv2 md2 ontologies with
        | Except.error e => Except.error (e, g3)
        | Except.ok none => Except.ok none
        | Except.ok (some (cgs2, lv3)) =>
            Except.ok (some ⟨cgs2, lv3, selected, md2, subgraphs⟩)

/-- Embedding of clean_ontology_graph.  The source catches the
disconnection exception and re-invokes itself on the repaired graph with
no retry cap; the embedding indexes that recursion by fuel, returning none
when the fuel is exhausted with the recursion still running. -/
def clean_ontology_graph (uniprot_to_go : List (String × List String)) :
    Nat → Nat → PyGraph → List String → Option (Except PyErr (Option CleanResult))
  | 0, _, _, _ => none
  | retry + 1, fuel, graph, ontologies =>
    match clean_attempt uniprot_to_go graph ontologies fuel with
    | Except.ok r => some (Except.ok r)
    | Except.error (PyErr.dfs _ _, gmut) =>
        let (g2, onts2) := connect_pivot ontologies gmut
        clean_ontology_graph uniprot_to_go retry fuel g2 onts2
    | Except.error (e, _) => some (Except.error e)

/-- Embedding of process_cleaning: run clean_ontology_graph; its dedicated
except-branch would catch a surfaced disconnection exception, repair once
more and re-run, but the inner function never lets that exception escape. -/
def process_cleaning (uniprot_to_go : List (String × List String)) (graph : PyGraph)
    (pivots : List String) (retry fuel : Nat) :
    Option (Except PyErr (Option (CleanResult × List String))) :=
  match clean_ontology_graph uniprot_to_go retry fuel graph pivots with
  | none => none
  | some (Except.error (PyErr.dfs _ _)) =>
      let (g2, p2) := connect_pivot pivots graph
      match clean_ontology_graph uniprot_to_go retry fuel g2 p2 with
      | none => none
      | some (Except.error e) => some (Except.error e)
      | some (Except.ok none) => some (Except.ok none)
      | some (Except.ok (some r)) => some (Except.ok (some (r, p2)))
  | some (Except.error e) => some (Except.error e)
  | some (Except.ok none) => some (Except.ok none)
  | some (Except.ok (some r)) => some (Except.ok (some (r, pivots)))

/-! ## Concrete instances used by counterexamples and witnesses -/

/-- Two-node category with no annotation anywhere: root R at layer 0 and a
child a at layer 1. -/
def c3g : PyGraph :=
  ⟨["R", "a"], [("a", "R")], [(("R", "O"), 0), (("a", "O"), 1)], []⟩

/-- Result of the outer-layer pruner on c3g: every node removed, the layer
attribute entries retained. -/
def c3pruned : PyGraph :=
  ⟨[], [], [(("R", "O"), 0), (("a", "O"), 1)], []⟩

/-- Category whose only real annotation sits on the root, with a
boundary-sentinel node at layer 1 and an unannotated node at layer 2. -/
def c4g : PyGraph :=
  ⟨["R", "x", "y"], [("x", "R"), ("y", "x")],
   [(("R", "O"), 0), (("x", "O"), 1), (("y", "O"), 2)],
   [("R", UniVal.ids ["P"]), ("x", UniVal.lowest)]⟩

/-- c4g after removal of its layer-2 node. -/
def c4res : PyGraph :=
  ⟨["R", "x"], [("x", "R")],
   [(("R", "O"), 0), (("x", "O"), 1), (("y", "O"), 2)],
   [("R", UniVal.ids ["P"]), ("x", UniVal.lowest)]⟩

/-- Graph whose node u has one predecessor at an equal layer and one at a
greater layer. -/
def c7g : PyGraph :=
  ⟨["n", "u", "p"], [("n", "u"), ("p", "u")],
   [(("n", "O"), 2), (("u", "O"), 1), (("p", "O"), 1)], []⟩

/-- Two-node graph: a real-annotated node A at layer 1 pointing at an
unannotated node F at layer 2. -/
def c6g : PyGraph :=
  ⟨["A", "F"], [("A", "F")],
   [(("A", "O"), 1), (("F", "O"), 2)], [("A", UniVal.ids ["P"])]⟩

/-- c6g after the boundary marker wrote the lowest sentinel on F. -/
def c6marked : PyGraph :=
  ⟨["A", "F"], [("A", "F")],
   [(("A", "O"), 1), (("F", "O"), 2)],
   [("A", UniVal.ids ["P"]), ("F", UniVal.lowest)]⟩

/-- Start node S without the layer attribute and one edge to a node T that
carries it. -/
def c2g : PyGraph :=
  ⟨["S", "T"], [("S", "T")], [(("T", "O"), 1)], []⟩

/-- Annotation map of the repair-divergence input: one identifier mapped to
node A. -/
def c8u2g : List (String × List String) := [("P1", ["A"])]

/-- Repair-divergence input graph: root GO1, annotated node A with an edge
to GO1 and an edge to a node B that no layering from GO1 or from any later
connector ever reaches. -/
def c8G0 : PyGraph :=
  ⟨["GO1", "A", "B"], [("A", "GO1"), ("A", "B")], [], []⟩

/-- One repair step of the orchestrator on a (graph, pivots) state: run an
attempt and, on a disconnection exception, apply connect_pivot to the
mutated graph; any other outcome leaves the state unchanged. -/
def c8step (s : PyGraph × List String) : PyGraph × List String :=
  match clean_attempt c8u2g s.1 s.2 9 with
  | Except.error (PyErr.dfs _ _, g) => connect_pivot s.2 g
  | _ => s

/-- State after the first repair on the divergence input. -/
def c8S1 : PyGraph × List String := c8step (c8G0, ["GO1"])

/-- State after the second repair; a fixed point of the repair step. -/
def c8S2 : PyGraph × List String := c8step c8S1

/-- Kind of the error produced by an attempt, graph component dropped. -/
def attemptErrKind {α : Type} : Except (PyErr × PyGraph) α → Option PyErr
  | Except.error (e, _) => some e
  | Except.ok _ => none

/-- Graph as mutated by the failing first attempt on the divergence input. -/
def c8mut0 : PyGraph :=
  match clean_attempt c8u2g c8G0 ["GO1"] 9 with
  | Except.error (_, g) => g
  | Except.ok _ => c8G0

/-- Graph as mutated by the failing second attempt. -/
def c8mut1 : PyGraph :=
  match clean_attempt c8u2g c8S1.1 c8S1.2 9 with
  | Except.error (_, g) => g
  | Except.ok _ => c8G0

/-- Graph as mutated by the failing third attempt. -/
def c8mut2 : PyGraph :=
  match clean_attempt c8u2g c8S2.1 c8S2.2 9 with
  | Except.error (_, g) => g
  | Except.ok _ => c8G0

/-- Whether a result is the disconnection exception. -/
def isDfsError {α : Type} : Except PyErr α → Bool
  | Except.error (PyErr.dfs _ _) => true
  | _ => false

/-- Layer d of the graph holds a node carrying the UniprotID key: exactly
the stopping test of the outer-layer pruner at distance d. -/
def layer_has_uniprot (g : PyGraph) (ontology : String) (d : Nat) : Bool :=
  uniprot_id_in_layer (find_nodes_at_distance ontology d g.nodes g) g

/-- Well-formed graph: every edge endpoint is a node. -/
def PyGraph.wf (g : PyGraph) : Prop :=
  ∀ e ∈ g.edges, e.1 ∈ g.nodes ∧ e.2 ∈ g.nodes

/-- Graph for the shared-ancestor promotion witness: node u has two
incoming edges, from the popped leaf and from a node q already scheduled
for removal. -/
def c5g : PyGraph :=
  ⟨["leaf", "q", "u"], [("leaf", "u"), ("q", "u")], [(("u", "O"), 1)], []⟩

/-- Annotation map of the idempotence failing input: one identifier
attached to the category root itself. -/
def c9u2g : List (String × List String) := [("U1", ["R"])]

/-- Idempotence failing input graph: the chain b to a to root R. -/
def c9g : PyGraph := ⟨["R", "a", "b"], [("a", "R"), ("b", "a")], [], []⟩

/-- First pipeline run on the failing input. -/
def c9result1 : Option CleanResult :=
  match clean_ontology_graph c9u2g 3 9 c9g ["R"] with
  | some (Except.ok r) => r
  | _ => none

/-- Cleaned per-category graph produced by the first run. -/
def c9g1 : PyGraph :=
  match c9result1 with
  | some r => r.clean_graphs "R"
  | none => c9g

/-- Second pipeline run, on the already-cleaned graph with the same
annotation map. -/
def c9result2 : Option CleanResult :=
  match clean_ontology_graph c9u2g 3 9 c9g1 ["R"] with
  | some (Except.ok r) => r
  | _ => none

/-- Node set of the first run for the category. -/
def c9nodes1 : Option (List Node) :=
  c9result1.map fun r => (r.clean_graphs "R").nodes

/-- Node set of the second run for the category. -/
def c9nodes2 : Option (List Node) :=
  c9result2.map fun r => (r.clean_graphs "R").nodes

/-! ## Helper lemmas for the repair divergence -/

theorem c8_attempt0 :
    clean_attempt c8u2g c8G0 ["GO1"] 9 = Except.error (PyErr.dfs "A" "GO1", c8mut0) := rfl

theorem c8_repair0 : connect_pivot ["GO1"] c8mut0 = c8S1 := rfl

theorem c8_attempt1 :
    clean_attempt c8u2g c8S1.1 c8S1.2 9 =
      Except.error (PyErr.dfs "A" "new_connecting_node", c8mut1) := rfl

theorem c8_repair1 : connect_pivot c8S1.2 c8mut1 = c8S2 := rfl

theorem c8_attempt2 :
    clean_attempt c8u2g c8S2.1 c8S2.2 9 =
      Except.error (PyErr.dfs "A" "new_connecting_node", c8mut2) := rfl

theorem c8_repair2 : connect_pivot c8S2.2 c8mut2 = c8S2 := rfl

theorem c8_loop_S2 (n : Nat) :
    clean_ontology_graph c8u2g n 9 c8S2.1 c8S2.2 = none := by
  induction n with
  | zero => rfl
  | succ m ih =>
      rw [clean_ontology_graph, c8_attempt2]
      show (match connect_pivot c8S2.2 c8mut2 with
            | (g2, onts2) => clean_ontology_graph c8u2g m 9 g2 onts2) = none
      rw [c8_repair2]
      exact ih

theorem c8_diverges (n : Nat) :
    clean_ontology_graph c8u2g n 9 c8G0 ["GO1"] = none := by
  match n with
  | 0 => rfl
  | m + 1 =>
      rw [clean_ontology_graph, c8_attempt0]
      show (match connect_pivot ["GO1"] c8mut0 with
            | (g2, onts2) => clean_ontology_graph c8u2g m 9 g2 onts2) = none
      rw [c8_repair0]
      show clean_ontology_graph c8u2g m 9 c8S1.1 c8S1.2 = none
      match m with
      | 0 => rfl
      | k + 1 =>
          rw [clean_ontology_graph, c8_attempt1]
          show (match connect_pivot c8S1.2 c8mut1 with
                | (g2, onts2) => clean_ontology_graph c8u2g k 9 g2 onts2) = none
          rw [c8_repair1]
          exact c8_loop_S2 k

/-! ## Counterexample theorems -/

/-- C2 counterexample: on a start node lacking the layer attribute whose
single DFS target carries it, find_farthest_node raises a plain KeyError:
it neither raises the disconnection signal nor returns the
maximum-layer visited node, contradicting the claimed if-and-only-if. -/
theorem c2_farthest_node_counterexample :
    find_farthest_node "O" "S" c2g = Except.error PyErr.keyError ∧
    (edgeDfs c2g "S").map (fun e => e.2) = ["T"] ∧
    c2g.layerOf "O" "T" = some 1 ∧
    c2g.layerOf "O" "S" = none := by
  refine ⟨rfl, rfl, rfl, rfl⟩

/-- C3 counterexample: a two-node category with no annotation at all is
pruned to the empty graph — the root is removed too — with the returned
maximum distance left at its input value 1 rather than reset to 0, and the
subsequent leaf pruner leaves that empty graph unchanged. -/
theorem c3_empty_category_counterexample :
    c3g.uniOf "R" = none ∧ c3g.uniOf "a" = none ∧
    prune_layers_without_uniprot "O" c3g 1 ["a"] = Except.ok (c3pruned, [], 1) ∧
    clean_graph_layer 10 "O" [] 1 c3pruned c3pruned.reverse =
      Except.ok (some (c3pruned, [])) ∧
    c3pruned.nodes = [] := by
  refine ⟨rfl, rfl, rfl, rfl, rfl⟩

/-- C4 counterexample: the outer-layer pruner stops at layer 1, which
holds only the boundary sentinel, although the only real annotation sits
at layer 0; the scan halts on mere presence of the UniprotID key, not on a
real annotation. -/
theorem c4_outer_pruner_counterexample :
    prune_layers_without_uniprot "O" c4g 2 [] = Except.ok (c4res, ["x"], 1) ∧
    c4g.uniOf "x" = some UniVal.lowest ∧
    c4g.uniOf "y" = none ∧
    c4g.uniOf "R" = some (UniVal.ids ["P"]) ∧
    c4g.layerOf "O" "x" = some 1 ∧
    c4g.layerOf "O" "R" = some 0 := by
  refine ⟨rfl, rfl, rfl, rfl, rfl, rfl⟩

/-- C6 counterexample: node F carries no annotation on entry, is marked
with the boundary sentinel by the traversal started at A, and then itself
starts a traversal later in the same scan, although it never carries a
real annotation. -/
theorem c6_boundary_marker_counterexample :
    mark_lowest_nodes ["O"] c6g = Except.ok (c6marked, [("O", "A"), ("O", "F")]) ∧
    c6g.uniOf "F" = none ∧
    c6marked.uniOf "F" = some UniVal.lowest := by
  refine ⟨rfl, rfl, rfl⟩

/-- C7 counterexample: node u has no edge originating at a strictly lower
layer — its predecessors sit at layers 2 and 1 while u itself sits at
layer 1 — yet add_leaves does not promote it, because the code also
rejects a predecessor at an equal layer. -/
theorem c7_add_leaves_counterexample :
    add_leaves [] "n" "O" c7g = Except.ok [] ∧
    c7g.succs "n" = ["u"] ∧
    c7g.preds "u" = ["n", "p"] ∧
    c7g.layerOf "O" "u" = some 1 ∧
    c7g.layerOf "O" "n" = some 2 ∧
    c7g.layerOf "O" "p" = some 1 := by
  refine ⟨rfl, rfl, rfl, rfl, rfl, rfl⟩

/-- C8 counterexample: on the three-node divergence input the orchestrator
never returns, whatever retry fuel it is given: every attempt raises the
disconnection signal, every repair re-enters the recursion, and no fatal
retry-bound error exists in the code. -/
theorem c8_retry_counterexample :
    ¬ ∃ n r, clean_ontology_graph c8u2g n 9 c8G0 ["GO1"] = some r := by
  rintro ⟨n, r, h⟩
  rw [c8_diverges] at h
  exact Option.noConfusion h

/-! ## Basic lemmas about the graph operations -/

theorem mem_removeNode {g : PyGraph} {m n : Node} :
    m ∈ (g.removeNode n).nodes ↔ m ∈ g.nodes ∧ m ≠ n := by
  simp [PyGraph.removeNode, List.mem_filter]

theorem removeNode_layers (g : PyGraph) (n : Node) :
    (g.removeNode n).layers = g.layers := rfl

theorem removeNode_uniprot (g : PyGraph) (n : Node) :
    (g.removeNode n).uniprot = g.uniprot := rfl

theorem layerOf_eq_of_layers {g h : PyGraph} (hl : h.layers = g.layers)
    (ontology : String) (n : Node) : h.layerOf ontology n = g.layerOf ontology n := by
  simp [PyGraph.layerOf, hl]

theorem uniOf_eq_of_uniprot {g h : PyGraph} (hu : h.uniprot = g.uniprot)
    (n : Node) : h.uniOf n = g.uniOf n := by
  simp [PyGraph.uniOf, hu]

theorem removeNode_wf {g : PyGraph} (n : Node) (hwf : g.wf) : (g.removeNode n).wf := by
  intro e he
  simp only [PyGraph.removeNode, List.mem_filter, decide_eq_true_eq] at he
  obtain ⟨he1, he2, he3⟩ := he
  obtain ⟨h1, h2⟩ := hwf e he1
  exact ⟨mem_removeNode.mpr ⟨h1, he2⟩, mem_removeNode.mpr ⟨h2, he3⟩⟩

theorem mem_succs {g : PyGraph} {n m : Node} (hwf : g.wf) (hm : m ∈ g.succs n) :
    m ∈ g.nodes := by
  simp only [PyGraph.succs, List.mem_map, List.mem_filter] at hm
  obtain ⟨e, ⟨he, -⟩, rfl⟩ := hm
  exact (hwf e he).2

theorem mem_preds {g : PyGraph} {n m : Node} (hwf : g.wf) (hm : m ∈ g.preds n) :
    m ∈ g.nodes := by
  simp only [PyGraph.preds, List.mem_map, List.mem_filter] at hm
  obtain ⟨e, ⟨he, -⟩, rfl⟩ := hm
  exact (hwf e he).1

/-! ## Characterization of find_nodes_at_distance -/

theorem mem_find_nodes {ontology : String} {dst : Nat} {nodes : List Node}
    {graph : PyGraph} {n : Node} :
    n ∈ find_nodes_at_distance ontology dst nodes graph ↔
      n ∈ nodes ∧ n ∈ graph.nodes ∧ graph.layerOf ontology n = some dst := by
  simp only [find_nodes_at_distance, List.mem_filter, Bool.and_eq_true, decide_eq_true_eq]
  cases h : graph.layerOf ontology n <;> simp [h, and_assoc]

theorem uniprot_id_in_layer_true_iff {ns : List Node} {g : PyGraph} :
    uniprot_id_in_layer ns g = true ↔ ∃ m ∈ ns, (g.uniOf m).isSome := by
  simp [uniprot_id_in_layer, has_uniprot_id, List.any_eq_true]

theorem uniprot_id_in_layer_false {ns : List Node} {g : PyGraph}
    (h : uniprot_id_in_layer ns g = false) : ∀ m ∈ ns, g.uniOf m = none := by
  intro m hm
  by_contra hne
  have : uniprot_id_in_layer ns g = true :=
    uniprot_id_in_layer_true_iff.mpr ⟨m, hm, Option.isSome_iff_ne_none.mpr hne⟩
  simp [this] at h

theorem layer_has_uniprot_iff {g : PyGraph} {ontology : String} {d : Nat} :
    layer_has_uniprot g ontology d = true ↔
      ∃ m, m ∈ g.nodes ∧ g.layerOf ontology m = some d ∧ (g.uniOf m).isSome := by
  rw [layer_has_uniprot, uniprot_id_in_layer_true_iff]
  constructor
  · rintro ⟨m, hm, hs⟩
    obtain ⟨-, h2, h3⟩ := mem_find_nodes.mp hm
    exact ⟨m, h2, h3, hs⟩
  · rintro ⟨m, h1, h2, hs⟩
    exact ⟨m, mem_find_nodes.mpr ⟨h1, h1, h2⟩, hs⟩

/-! ## Error classification: the pruners can only raise KeyError -/

theorem exbind_ok {ε α β : Type} (a : α) (f : α → Except ε β) :
    (Except.ok a >>= f : Except ε β) = f a := rfl

theorem exbind_err {ε α β : Type} (e : ε) (f : α → Except ε β) :
    (Except.error e >>= f : Except ε β) = Except.error e := rfl

theorem ex_pure_ne_error {ε α : Type} (a : α) (e : ε) :
    (pure a : Except ε α) ≠ Except.error e := fun h => Except.noConfusion h

theorem ex_ok_ne_error {ε α : Type} (a : α) (e : ε) :
    (Except.ok a : Except ε α) ≠ Except.error e := fun h => Except.noConfusion h

theorem nlleAux_err {g : PyGraph} {o : String} {n : Node} :
    ∀ {l : List Node} {e : PyErr}, nlleAux g o n l = Except.error e → e = PyErr.keyError := by
  intro l
  induction l with
  | nil => intro e h; exact absurd h (ex_pure_ne_error _ _)
  | cons p rest ih =>
      intro e h
      rw [nlleAux] at h
      split at h
      · exact ((Except.error.injEq _ _).mp h).symm
      · split at h
        · exact ((Except.error.injEq _ _).mp h).symm
        · split at h
          · exact absurd h (ex_pure_ne_error _ _)
          · exact ih h

theorem nlle_err {n : Node} {o : String} {g : PyGraph} {e : PyErr}
    (h : no_lower_layer_edge n o g = Except.error e) : e = PyErr.keyError :=
  nlleAux_err h

theorem foldlM_err {α β : Type} {f : β → α → Except PyErr β}
    (hf : ∀ b a e, f b a = Except.error e → e = PyErr.keyError) :
    ∀ (l : List α) (b : β) (e : PyErr), l.foldlM f b = Except.error e → e = PyErr.keyError := by
  intro l
  induction l with
  | nil => intro b e h; exact absurd h (ex_pure_ne_error _ _)
  | cons a rest ih =>
      intro b e h
      rw [List.foldlM_cons] at h
      cases hfa : f b a with
      | error e2 =>
          rw [hfa, exbind_err] at h
          obtain rfl := (Except.error.injEq _ _).mp h
          exact hf b a _ hfa
      | ok b2 =>
          rw [hfa, exbind_ok] at h
          exact ih b2 e h

theorem add_leaf_step_err {o : String} {g : PyGraph} (lv : List Node) (m : Node) (e : PyErr)
    (h : add_leaf_step o g lv m = Except.error e) : e = PyErr.keyError := by
  rw [add_leaf_step] at h
  by_cases hm : m ∈ lv
  · rw [if_pos hm] at h; exact absurd h (ex_pure_ne_error _ _)
  · rw [if_neg hm] at h
    cases hn : no_lower_layer_edge m o g with
    | error e2 =>
        rw [hn, exbind_err] at h
        obtain rfl := (Except.error.injEq _ _).mp h
        exact nlle_err hn
    | ok b =>
        rw [hn, exbind_ok] at h
        cases b
        · rw [if_neg (by simp)] at h; exact absurd h (ex_pure_ne_error _ _)
        · rw [if_pos rfl] at h; exact absurd h (ex_pure_ne_error _ _)

theorem add_leaves_err {lv : List Node} {n : Node} {o : String} {g : PyGraph} {e : PyErr}
    (h : add_leaves lv n o g = Except.error e) : e = PyErr.keyError := by
  rw [add_leaves] at h
  cases h1 : (g.succs n).foldlM (add_leaf_step o g) lv with
  | error e2 =>
      rw [h1, exbind_err] at h
      obtain rfl := (Except.error.injEq _ _).mp h
      exact foldlM_err add_leaf_step_err _ _ _ h1
  | ok l1 =>
      rw [h1, exbind_ok] at h
      exact foldlM_err add_leaf_step_err _ _ _ h

theorem prune_node_step_err {o : String} (st : PyGraph × List Node) (n : Node) (e : PyErr)
    (h : prune_node_step o st n = Except.error e) : e = PyErr.keyError := by
  obtain ⟨g, lv⟩ := st
  rw [prune_node_step] at h
  cases h1 : add_leaves lv n o g with
  | error e2 =>
      rw [h1] at h
      rw [exbind_err] at h
      obtain rfl := (Except.error.injEq _ _).mp h
      exact add_leaves_err h1
  | ok l2 =>
      rw [h1] at h
      rw [exbind_ok] at h
      exact absurd h (ex_pure_ne_error _ _)

theorem prune_batch_err {o : String} {ns : List Node} {g : PyGraph} {lv : List Node} {e : PyErr}
    (h : prune_batch o ns g lv = Except.error e) : e = PyErr.keyError :=
  foldlM_err prune_node_step_err ns (g, lv) e h

theorem pruneFrom_err {o : String} {M : Nat} :
    ∀ {dst : Nat} {g : PyGraph} {lv : List Node} {e : PyErr},
      pruneFrom o M dst g lv = Except.error e → e = PyErr.keyError := by
  intro dst
  induction dst with
  | zero =>
      intro g lv e h
      rw [pruneFrom] at h
      by_cases hb : uniprot_id_in_layer (find_nodes_at_distance o 0 g.nodes g) g
      · rw [if_pos hb] at h; exact absurd h (ex_pure_ne_error _ _)
      · rw [if_neg (by simp [hb])] at h
        cases h1 : prune_batch o (find_nodes_at_distance o 0 g.nodes g) g lv with
        | error e2 =>
            rw [h1, exbind_err] at h
            obtain rfl := (Except.error.injEq _ _).mp h
            exact prune_batch_err h1
        | ok p =>
            obtain ⟨g2, lv2⟩ := p
            rw [h1, exbind_ok] at h
            exact absurd h (ex_pure_ne_error _ _)
  | succ d ih =>
      intro g lv e h
      rw [pruneFrom] at h
      by_cases hb : uniprot_id_in_layer (find_nodes_at_distance o (d + 1) g.nodes g) g
      · rw [if_pos hb] at h; exact absurd h (ex_pure_ne_error _ _)
      · rw [if_neg (by simp [hb])] at h
        cases h1 : prune_batch o (find_nodes_at_distance o (d + 1) g.nodes g) g lv with
        | error e2 =>
            rw [h1, exbind_err] at h
            obtain rfl := (Except.error.injEq _ _).mp h
            exact prune_batch_err h1
        | ok p =>
            obtain ⟨g2, lv2⟩ := p
            rw [h1, exbind_ok] at h
            exact ih h

theorem update_dst_err {u : Bool} {m : Node} {dst : Nat} {o : String} {g : PyGraph} {e : PyErr}
    (h : update_dst u m dst o g = Except.error e) : e = PyErr.keyError := by
  rw [update_dst] at h
  split at h
  · exact ((Except.error.injEq _ _).mp h).symm
  · split at h <;> exact absurd h (ex_pure_ne_error _ _)

theorem process_neighbor_err {rm : List Node} {leaf : Node} {o : String} {g rg : PyGraph}
    (st : List Node × Bool × Nat) (m : Node) (e : PyErr)
    (h : process_neighbor rm leaf o g rg st m = Except.error e) : e = PyErr.keyError := by
  obtain ⟨lv, u, d⟩ := st
  rw [process_neighbor] at h
  split at h
  · split at h
    · cases h1 : update_dst u m d o g with
      | error e2 =>
          rw [h1, exbind_err] at h
          obtain rfl := (Except.error.injEq _ _).mp h
          exact update_dst_err h1
      | ok p =>
          obtain ⟨u2, d2⟩ := p
          rw [h1, exbind_ok] at h
          exact absurd h (ex_pure_ne_error _ _)
    · exact absurd h (ex_pure_ne_error _ _)
  · cases h1 : update_dst u m d o g with
    | error e2 =>
        rw [h1, exbind_err] at h
        obtain rfl := (Except.error.injEq _ _).mp h
        exact update_dst_err h1
    | ok p =>
        obtain ⟨u2, d2⟩ := p
        rw [h1, exbind_ok] at h
        exact absurd h (ex_pure_ne_error _ _)

theorem process_leaves_aux_err {o : String} :
    ∀ {stack lv : List Node} {u : Bool} {d : Nat} {g rg : PyGraph} {e : PyErr},
      process_leaves_aux o stack lv u d g rg = Except.error e → e = PyErr.keyError := by
  intro stack
  induction stack with
  | nil => intro lv u d g rg e h; exact absurd h (ex_pure_ne_error _ _)
  | cons leaf rest ih =>
      intro lv u d g rg e h
      rw [process_leaves_aux] at h
      cases h1 : (g.succs leaf).foldlM (process_neighbor rest.reverse leaf o g rg) (lv, u, d) with
      | error e2 =>
          rw [h1, exbind_err] at h
          obtain rfl := (Except.error.injEq _ _).mp h
          exact foldlM_err (fun b a e3 hh => process_neighbor_err b a e3 hh) _ _ _ h1
      | ok p =>
          obtain ⟨lv2, u2, d2⟩ := p
          rw [h1, exbind_ok] at h
          exact ih h

theorem process_leaves_err {rm lv : List Node} {o : String} {d : Nat} {g rg : PyGraph} {e : PyErr}
    (h : process_leaves rm lv o d g rg = Except.error e) : e = PyErr.keyError := by
  rw [process_leaves] at h
  cases h1 : process_leaves_aux o rm.reverse lv false d g rg with
  | error e2 =>
      rw [h1, exbind_err] at h
      obtain rfl := (Except.error.injEq _ _).mp h
      exact process_leaves_aux_err h1
  | ok p =>
      obtain ⟨lv2, u2, d2, g2, rg2⟩ := p
      rw [h1, exbind_ok] at h
      exact absurd h (ex_pure_ne_error _ _)

theorem clean_layer_loop_err {o : String} :
    ∀ {fuel dst : Nat} {lv : List Node} {g rg : PyGraph} {e : PyErr},
      clean_layer_loop o fuel dst lv g rg = Except.error e → e = PyErr.keyError := by
  intro fuel
  induction fuel with
  | zero => intro dst lv g rg e h; exact absurd h (ex_pure_ne_error _ _)
  | succ f ih =>
      intro dst lv g rg e h
      match dst with
      | 0 => exact absurd h (ex_pure_ne_error _ _)
      | d + 1 =>
          rw [clean_layer_loop] at h
          cases h1 : process_leaves
              (removable_at (find_nodes_at_distance o (d + 1) lv g) g) lv o (d + 1) g rg with
          | error e2 =>
              rw [h1, exbind_err] at h
              obtain rfl := (Except.error.injEq _ _).mp h
              exact process_leaves_err h1
          | ok p =>
              obtain ⟨lv2, d2, g2, rg2⟩ := p
              rw [h1, exbind_ok] at h
              exact ih h

theorem isDfsError_eq_false {α : Type} {r : Except PyErr α}
    (h : ∀ e, r = Except.error e → e = PyErr.keyError) : isDfsError r = false := by
  cases r with
  | ok a => rfl
  | error e => rw [h e rfl]; rfl

/-- C10: find_nodes_at_distance is total — a Lean function returning a
plain list — and returns exactly the candidates that are nodes of the
graph whose layer attribute for the ontology exists and equals the target
distance, silently skipping the rest; and neither the outer-layer pruner
nor the leaf pruner can ever produce the disconnection exception — every
error they produce is a KeyError, so the signal can only come from the
boundary marker traversal. -/
theorem c10_find_nodes_total_characterization :
    (∀ (ontology : String) (dst : Nat) (nodes : List Node) (graph : PyGraph) (n : Node),
       n ∈ find_nodes_at_distance ontology dst nodes graph ↔
         n ∈ nodes ∧ n ∈ graph.nodes ∧ graph.layerOf ontology n = some dst) ∧
    (∀ (ontology : String) (graph : PyGraph) (max_dst : Nat) (leaves : List Node),
       isDfsError (prune_layers_without_uniprot ontology graph max_dst leaves) = false) ∧
    (∀ (fuel : Nat) (ontology : String) (leaves : List Node) (max_dst : Nat) (g rg : PyGraph),
       isDfsError (clean_graph_layer fuel ontology leaves max_dst g rg) = false) := by
  refine ⟨fun o d ns g n => mem_find_nodes, fun o g M lv => ?_, fun f o lv M g rg => ?_⟩
  · exact isDfsError_eq_false fun e h => pruneFrom_err h
  · exact isDfsError_eq_false fun e h => clean_layer_loop_err h

/-! ## Structure of a layer-removal batch -/

theorem prune_node_step_ok {o : String} {g : PyGraph} {lv : List Node} {n : Node}
    {gm : PyGraph} {lvm : List Node}
    (h : prune_node_step o (g, lv) n = Except.ok (gm, lvm)) :
    gm = g.removeNode n ∧
      ∃ lv', add_leaves lv n o g = Except.ok lv' ∧
        lvm = if n ∈ lv' then lv'.erase n else lv' := by
  rw [prune_node_step] at h
  cases h1 : add_leaves lv n o g with
  | error e =>
      rw [h1, exbind_err] at h
      exact absurd h (fun hh => Except.noConfusion hh)
  | ok lv' =>
      rw [h1, exbind_ok] at h
      have h2 := Except.ok.inj h
      obtain ⟨h3, h4⟩ := Prod.mk.injEq .. ▸ h2
      exact ⟨h3.symm, lv', rfl, h4.symm⟩

theorem prune_batch_attrs {o : String} :
    ∀ {ns : List Node} {g : PyGraph} {lv : List Node} {g2 : PyGraph} {lv2 : List Node},
      prune_batch o ns g lv = Except.ok (g2, lv2) →
      g2.layers = g.layers ∧ g2.uniprot = g.uniprot := by
  intro ns
  induction ns with
  | nil =>
      intro g lv g2 lv2 h
      rw [prune_batch, List.foldlM_nil] at h
      have h2 := Except.ok.inj h
      obtain ⟨h3, h4⟩ := Prod.mk.injEq .. ▸ h2
      rw [← h3]
      exact ⟨rfl, rfl⟩
  | cons n rest ih =>
      intro g lv g2 lv2 h
      rw [prune_batch, List.foldlM_cons] at h
      cases h1 : prune_node_step o (g, lv) n with
      | error e =>
          rw [h1, exbind_err] at h
          exact absurd h (fun hh => Except.noConfusion hh)
      | ok p =>
          obtain ⟨gm, lvm⟩ := p
          rw [h1, exbind_ok] at h
          obtain ⟨hgm, -⟩ := prune_node_step_ok h1
          obtain ⟨hl, hu⟩ := ih (show prune_batch o rest gm lvm = _ from h)
          subst hgm
          exact ⟨hl, hu⟩

theorem prune_batch_nodes {o : String} :
    ∀ {ns : List Node} {g : PyGraph} {lv : List Node} {g2 : PyGraph} {lv2 : List Node},
      prune_batch o ns g lv = Except.ok (g2, lv2) →
      ∀ m, m ∈ g2.nodes ↔ m ∈ g.nodes ∧ m ∉ ns := by
  intro ns
  induction ns with
  | nil =>
      intro g lv g2 lv2 h m
      rw [prune_batch, List.foldlM_nil] at h
      have h2 := Except.ok.inj h
      obtain ⟨h3, h4⟩ := Prod.mk.injEq .. ▸ h2
      rw [← h3]
      simp
  | cons n rest ih =>
      intro g lv g2 lv2 h m
      rw [prune_batch, List.foldlM_cons] at h
      cases h1 : prune_node_step o (g, lv) n with
      | error e =>
          rw [h1, exbind_err] at h
          exact absurd h (fun hh => Except.noConfusion hh)
      | ok p =>
          obtain ⟨gm, lvm⟩ := p
          rw [h1, exbind_ok] at h
          obtain ⟨hgm, -⟩ := prune_node_step_ok h1
          rw [ih (show prune_batch o rest gm lvm = _ from h) m, hgm, mem_removeNode]
          simp only [List.mem_cons, not_or]
          tauto

theorem prune_batch_wf {o : String} :
    ∀ {ns : List Node} {g : PyGraph} {lv : List Node} {g2 : PyGraph} {lv2 : List Node},
      prune_batch o ns g lv = Except.ok (g2, lv2) → g.wf → g2.wf := by
  intro ns
  induction ns with
  | nil =>
      intro g lv g2 lv2 h hwf
      rw [prune_batch, List.foldlM_nil] at h
      have h2 := Except.ok.inj h
      obtain ⟨h3, -⟩ := Prod.mk.injEq .. ▸ h2
      rw [← h3]
      exact hwf
  | cons n rest ih =>
      intro g lv g2 lv2 h hwf
      rw [prune_batch, List.foldlM_cons] at h
      cases h1 : prune_node_step o (g, lv) n with
      | error e =>
          rw [h1, exbind_err] at h
          exact absurd h (fun hh => Except.noConfusion hh)
      | ok p =>
          obtain ⟨gm, lvm⟩ := p
          rw [h1, exbind_ok] at h
          obtain ⟨hgm, -⟩ := prune_node_step_ok h1
          exact ih (show prune_batch o rest gm lvm = _ from h) (hgm ▸ removeNode_wf n hwf)

/-! ## Annotated nodes survive both pruners -/

theorem pruneFrom_keeps_keyed {o : String} {M : Nat} {n : Node} :
    ∀ {dst : Nat} {g : PyGraph} {lv : List Node} {g2 : PyGraph} {lv2 : List Node} {d2 : Nat},
      n ∈ g.nodes → (g.uniOf n).isSome →
      pruneFrom o M dst g lv = Except.ok (g2, lv2, d2) → n ∈ g2.nodes := by
  intro dst
  induction dst with
  | zero =>
      intro g lv g2 lv2 d2 hn hk h
      rw [pruneFrom] at h
      by_cases hb : uniprot_id_in_layer (find_nodes_at_distance o 0 g.nodes g) g
      · rw [if_pos hb] at h
        have h2 := Except.ok.inj h
        obtain ⟨h3, -⟩ := Prod.mk.injEq .. ▸ h2
        rw [← h3]; exact hn
      · rw [if_neg (by simp [hb])] at h
        cases h1 : prune_batch o (find_nodes_at_distance o 0 g.nodes g) g lv with
        | error e =>
            rw [h1, exbind_err] at h
            exact absurd h (fun hh => Except.noConfusion hh)
        | ok p =>
            obtain ⟨gm, lvm⟩ := p
            rw [h1, exbind_ok] at h
            have h2 := Except.ok.inj h
            obtain ⟨h3, -⟩ := Prod.mk.injEq .. ▸ h2
            rw [← h3]
            refine (prune_batch_nodes h1 n).mpr ⟨hn, fun hmem => ?_⟩
            have := uniprot_id_in_layer_false (Bool.not_eq_true _ ▸ hb) n hmem
            rw [this] at hk
            exact Bool.noConfusion hk
  | succ d ih =>
      intro g lv g2 lv2 d2 hn hk h
      rw [pruneFrom] at h
      by_cases hb : uniprot_id_in_layer (find_nodes_at_distance o (d + 1) g.nodes g) g
      · rw [if_pos hb] at h
        have h2 := Except.ok.inj h
        obtain ⟨h3, -⟩ := Prod.mk.injEq .. ▸ h2
        rw [← h3]; exact hn
      · rw [if_neg (by simp [hb])] at h
        cases h1 : prune_batch o (find_nodes_at_distance o (d + 1) g.nodes g) g lv with
        | error e =>
            rw [h1, exbind_err] at h
            exact absurd h (fun hh => Except.noConfusion hh)
        | ok p =>
            obtain ⟨gm, lvm⟩ := p
            rw [h1, exbind_ok] at h
            have hnm : n ∈ gm.nodes := by
              refine (prune_batch_nodes h1 n).mpr ⟨hn, fun hmem => ?_⟩
              have := uniprot_id_in_layer_false (Bool.not_eq_true _ ▸ hb) n hmem
              rw [this] at hk
              exact Bool.noConfusion hk
            have hkm : (gm.uniOf n).isSome := by
              rw [uniOf_eq_of_uniprot (prune_batch_attrs h1).2]
              exact hk
            exact ih hnm hkm h

theorem removable_at_unkeyed {g : PyGraph} :
    ∀ {lid acc : List Node},
      (∀ x ∈ acc, g.uniOf x = none) →
      ∀ x ∈ lid.foldl
          (fun rm leaf =>
            if (g.uniOf leaf).isSome then rm
            else if leaf ∈ rm then rm else rm ++ [leaf])
          acc,
        g.uniOf x = none := by
  intro lid
  induction lid with
  | nil => intro acc hacc x hx; exact hacc x hx
  | cons leaf rest ih =>
      intro acc hacc x hx
      rw [List.foldl_cons] at hx
      by_cases hk : (g.uniOf leaf).isSome
      · rw [if_pos hk] at hx
        exact ih hacc x hx
      · rw [if_neg hk] at hx
        by_cases hm : leaf ∈ acc
        · rw [if_pos hm] at hx
          exact ih hacc x hx
        · rw [if_neg hm] at hx
          refine ih (fun y hy => ?_) x hx
          rcases List.mem_append.mp hy with hy1 | hy2
          · exact hacc y hy1
          · rw [List.mem_singleton.mp hy2]
            exact Option.not_isSome_iff_eq_none.mp hk

theorem removable_at_spec {lid : List Node} {g : PyGraph} :
    ∀ x ∈ removable_at lid g, g.uniOf x = none :=
  removable_at_unkeyed (fun x hx => absurd hx (List.not_mem_nil x))

theorem process_leaves_aux_keeps_keyed {o : String} {n : Node} :
    ∀ {stack lv : List Node} {u : Bool} {d : Nat} {g rg : PyGraph}
      {lv2 : List Node} {u2 : Bool} {d2 : Nat} {g2 rg2 : PyGraph},
      (∀ x ∈ stack, g.uniOf x = none) → n ∈ g.nodes → (g.uniOf n).isSome →
      process_leaves_aux o stack lv u d g rg = Except.ok (lv2, u2, d2, g2, rg2) →
      n ∈ g2.nodes ∧ g2.uniprot = g.uniprot := by
  intro stack
  induction stack with
  | nil =>
      intro lv u d g rg lv2 u2 d2 g2 rg2 hstack hn hk h
      have h2 := Except.ok.inj h
      cases h2
      exact ⟨hn, rfl⟩
  | cons leaf rest ih =>
      intro lv u d g rg lv2 u2 d2 g2 rg2 hstack hn hk h
      rw [process_leaves_aux] at h
      cases h1 : (g.succs leaf).foldlM (process_neighbor rest.reverse leaf o g rg)
          (lv, u, d) with
      | error e =>
          rw [h1, exbind_err] at h
          exact absurd h (fun hh => Except.noConfusion hh)
      | ok p =>
          obtain ⟨lvm, um, dm⟩ := p
          rw [h1, exbind_ok] at h
          have hne : n ≠ leaf := by
            intro hEq
            rw [hEq, hstack leaf (List.mem_cons_self leaf rest)] at hk
            exact Bool.noConfusion hk
          have hstack2 : ∀ x ∈ rest, (g.removeNode leaf).uniOf x = none := fun x hx => by
            rw [uniOf_eq_of_uniprot (removeNode_uniprot g leaf)]
            exact hstack x (List.mem_cons_of_mem leaf hx)
          have hn2 : n ∈ (g.removeNode leaf).nodes := mem_removeNode.mpr ⟨hn, hne⟩
          have hk2 : ((g.removeNode leaf).uniOf n).isSome := by
            rw [uniOf_eq_of_uniprot (removeNode_uniprot g leaf)]
            exact hk
          have hrec := ih hstack2 hn2 hk2 h
          rw [removeNode_uniprot] at hrec
          exact hrec

theorem process_leaves_keeps_keyed {rm lv : List Node} {o : String} {d : Nat}
    {g rg : PyGraph} {n : Node} {lv2 : List Node} {d2 : Nat} {g2 rg2 : PyGraph}
    (hrm : ∀ x ∈ rm, g.uniOf x = none) (hn : n ∈ g.nodes) (hk : (g.uniOf n).isSome)
    (h : process_leaves rm lv o d g rg = Except.ok (lv2, d2, g2, rg2)) :
    n ∈ g2.nodes ∧ g2.uniprot = g.uniprot := by
  rw [process_leaves] at h
  cases h1 : process_leaves_aux o rm.reverse lv false d g rg with
  | error e =>
      rw [h1, exbind_err] at h
      exact absurd h (fun hh => Except.noConfusion hh)
  | ok p =>
      obtain ⟨lvm, um, dm, gm, rgm⟩ := p
      rw [h1, exbind_ok] at h
      obtain ⟨hmem, hu⟩ := process_leaves_aux_keeps_keyed
        (fun x hx => hrm x (List.mem_reverse.mp hx)) hn hk h1
      have h2 := Except.ok.inj h
      cases h2
      exact ⟨hmem, hu⟩

theorem clean_layer_loop_keeps_keyed {o : String} {n : Node} :
    ∀ {fuel dst : Nat} {lv : List Node} {g rg : PyGraph} {g2 : PyGraph} {l2 : List Node},
      n ∈ g.nodes → (g.uniOf n).isSome →
      clean_layer_loop o fuel dst lv g rg = Except.ok (some (g2, l2)) →
      n ∈ g2.nodes := by
  intro fuel
  induction fuel with
  | zero =>
      intro dst lv g rg g2 l2 hn hk h
      have h2 := Except.ok.inj h
      exact absurd h2 (fun hh => Option.noConfusion hh)
  | succ f ih =>
      intro dst lv g rg g2 l2 hn hk h
      match dst with
      | 0 =>
          have h2 := Except.ok.inj h
          have h3 := Option.some.inj h2
          obtain ⟨h4, -⟩ := Prod.mk.injEq .. ▸ h3
          rw [← h4]; exact hn
      | d + 1 =>
          rw [clean_layer_loop] at h
          cases h1 : process_leaves
              (removable_at (find_nodes_at_distance o (d + 1) lv g) g) lv o (d + 1) g rg with
          | error e =>
              rw [h1, exbind_err] at h
              exact absurd h (fun hh => Except.noConfusion hh)
          | ok p =>
              obtain ⟨lvm, dm, gm, rgm⟩ := p
              rw [h1, exbind_ok] at h
              obtain ⟨hmem, hu⟩ := process_leaves_keeps_keyed removable_at_spec hn hk h1
              exact ih hmem (by rw [uniOf_eq_of_uniprot hu]; exact hk) h

theorem pruneFrom_attrs {o : String} {M : Nat} :
    ∀ {dst : Nat} {g : PyGraph} {lv : List Node} {g2 : PyGraph} {lv2 : List Node} {d2 : Nat},
      pruneFrom o M dst g lv = Except.ok (g2, lv2, d2) →
      g2.layers = g.layers ∧ g2.uniprot = g.uniprot := by
  intro dst
  induction dst with
  | zero =>
      intro g lv g2 lv2 d2 h
      rw [pruneFrom] at h
      by_cases hb : uniprot_id_in_layer (find_nodes_at_distance o 0 g.nodes g) g
      · rw [if_pos hb] at h
        have h2 := Except.ok.inj h
        obtain ⟨h3, -⟩ := Prod.mk.injEq .. ▸ h2
        rw [← h3]; exact ⟨rfl, rfl⟩
      · rw [if_neg (by simp [hb])] at h
        cases h1 : prune_batch o (find_nodes_at_distance o 0 g.nodes g) g lv with
        | error e =>
            rw [h1, exbind_err] at h
            exact absurd h (fun hh => Except.noConfusion hh)
        | ok p =>
            obtain ⟨gm, lvm⟩ := p
            rw [h1, exbind_ok] at h
            have h2 := Except.ok.inj h
            obtain ⟨h3, -⟩ := Prod.mk.injEq .. ▸ h2
            rw [← h3]
            exact prune_batch_attrs h1
  | succ d ih =>
      intro g lv g2 lv2 d2 h
      rw [pruneFrom] at h
      by_cases hb : uniprot_id_in_layer (find_nodes_at_distance o (d + 1) g.nodes g) g
      · rw [if_pos hb] at h
        have h2 := Except.ok.inj h
        obtain ⟨h3, -⟩ := Prod.mk.injEq .. ▸ h2
        rw [← h3]; exact ⟨rfl, rfl⟩
      · rw [if_neg (by simp [hb])] at h
        cases h1 : prune_batch o (find_nodes_at_distance o (d + 1) g.nodes g) g lv with
        | error e =>
            rw [h1, exbind_err] at h
            exact absurd h (fun hh => Except.noConfusion hh)
        | ok p =>
            obtain ⟨gm, lvm⟩ := p
            rw [h1, exbind_ok] at h
            obtain ⟨hl, hu⟩ := ih h
            obtain ⟨hl2, hu2⟩ := prune_batch_attrs h1
            exact ⟨hl.trans hl2, hu.trans hu2⟩

/-- C1: a node carrying a real annotation — a UniprotID holding a list of
identifiers — that is present before pruning is still present after the
outer-layer pruner and still present after the leaf pruner has run on the
outer pruner's output. -/
theorem c1_pruning_preserves_annotated
    (ontology : String) (g : PyGraph) (max_dst : Nat) (leaves : List Node)
    (n : Node) (ids : List String) (fuel : Nat)
    (g1 : PyGraph) (l1 : List Node) (d1 : Nat) (g2 : PyGraph) (l2 : List Node)
    (hn : n ∈ g.nodes) (hk : g.uniOf n = some (UniVal.ids ids))
    (h1 : prune_layers_without_uniprot ontology g max_dst leaves = Except.ok (g1, l1, d1))
    (h2 : clean_graph_layer fuel ontology l1 d1 g1 g1.reverse = Except.ok (some (g2, l2))) :
    n ∈ g1.nodes ∧ n ∈ g2.nodes := by
  have hks : (g.uniOf n).isSome := by rw [hk]; rfl
  have hm1 : n ∈ g1.nodes := pruneFrom_keeps_keyed hn hks h1
  have hk1 : (g1.uniOf n).isSome := by
    rw [uniOf_eq_of_uniprot (pruneFrom_attrs h1).2]
    exact hks
  exact ⟨hm1, clean_layer_loop_keeps_keyed hm1 hk1 h2⟩

/-- Witness for C1 at a concrete input: the annotated root R of c4g
survives both pruners. -/
theorem c1_pruning_preserves_annotated_witness :
    ("R" ∈ c4g.nodes ∧ c4g.uniOf "R" = some (UniVal.ids ["P"]) ∧
      prune_layers_without_uniprot "O" c4g 2 [] = Except.ok (c4res, ["x"], 1) ∧
      clean_graph_layer 10 "O" ["x"] 1 c4res c4res.reverse =
        Except.ok (some (c4res, ["x"]))) ∧
    "R" ∈ c4res.nodes ∧ "R" ∈ c4res.nodes :=
  ⟨⟨by decide, rfl, rfl, rfl⟩,
   c1_pruning_preserves_annotated "O" c4g 2 [] "R" ["P"] 10 c4res ["x"] 1 c4res ["x"]
     (by decide) rfl rfl rfl⟩

/-! ## Stop layer of the outer pruner -/

theorem bool_eq_of_iff {a b : Bool} (h : a = true ↔ b = true) : a = b := by
  cases a <;> cases b <;> simp_all

theorem prune_batch_layer_key {o : String} {dst : Nat} {g : PyGraph} {lv : List Node}
    {gb : PyGraph} {lvb : List Node}
    (h : prune_batch o (find_nodes_at_distance o dst g.nodes g) g lv = Except.ok (gb, lvb)) :
    ∀ e, e ≠ dst → layer_has_uniprot gb o e = layer_has_uniprot g o e := by
  intro e he
  obtain ⟨hl, hu⟩ := prune_batch_attrs h
  refine bool_eq_of_iff ?_
  rw [layer_has_uniprot_iff, layer_has_uniprot_iff]
  constructor
  · rintro ⟨m, hm, hlay, hk⟩
    rw [layerOf_eq_of_layers hl] at hlay
    rw [uniOf_eq_of_uniprot hu] at hk
    exact ⟨m, ((prune_batch_nodes h m).mp hm).1, hlay, hk⟩
  · rintro ⟨m, hm, hlay, hk⟩
    refine ⟨m, (prune_batch_nodes h m).mpr ⟨hm, fun hns => ?_⟩,
      by rw [layerOf_eq_of_layers hl]; exact hlay,
      by rw [uniOf_eq_of_uniprot hu]; exact hk⟩
    obtain ⟨-, -, hdd⟩ := mem_find_nodes.mp hns
    rw [hlay] at hdd
    exact he (Option.some.inj hdd)

theorem prune_batch_keeps_other_layers {o : String} {dst : Nat} {g : PyGraph}
    {lv : List Node} {gb : PyGraph} {lvb : List Node}
    (h : prune_batch o (find_nodes_at_distance o dst g.nodes g) g lv = Except.ok (gb, lvb)) :
    ∀ m ∈ g.nodes, ∀ k, g.layerOf o m = some k → k ≠ dst → m ∈ gb.nodes := by
  intro m hm k hk hne
  refine (prune_batch_nodes h m).mpr ⟨hm, fun hns => ?_⟩
  obtain ⟨-, -, hdd⟩ := mem_find_nodes.mp hns
  rw [hk] at hdd
  exact hne (Option.some.inj hdd)

theorem pruneFrom_stop {o : String} {M : Nat} :
    ∀ {dst : Nat} {g : PyGraph} {lv : List Node} {g2 : PyGraph} {lv2 : List Node} {d2 : Nat},
      (∃ d, d ≤ dst ∧ layer_has_uniprot g o d = true) →
      pruneFrom o M dst g lv = Except.ok (g2, lv2, d2) →
      layer_has_uniprot g o d2 = true ∧ d2 ≤ dst ∧
        (∀ e, d2 < e → e ≤ dst → layer_has_uniprot g o e = false) ∧
        (∀ m ∈ g.nodes, ∀ k, g.layerOf o m = some k → k < d2 → m ∈ g2.nodes) := by
  intro dst
  induction dst with
  | zero =>
      intro g lv g2 lv2 d2 hex h
      obtain ⟨d, hd, hdt⟩ := hex
      interval_cases d
      rw [pruneFrom, ← layer_has_uniprot] at h
      rw [if_pos hdt] at h
      have h2 := Except.ok.inj h
      cases h2
      exact ⟨hdt, Nat.le_refl 0, fun e he1 he2 => absurd (Nat.lt_of_lt_of_le he1 he2)
        (Nat.lt_irrefl 0), fun m hm k hk hlt => absurd hlt (by omega)⟩
  | succ d ih =>
      intro g lv g2 lv2 d2 hex h
      rw [pruneFrom, ← layer_has_uniprot] at h
      by_cases hb : layer_has_uniprot g o (d + 1) = true
      · rw [if_pos hb] at h
        have h2 := Except.ok.inj h
        cases h2
        exact ⟨hb, Nat.le_refl _, fun e he1 he2 => absurd (Nat.lt_of_lt_of_le he1 he2)
          (Nat.lt_irrefl _), fun m hm k hk hlt => hm⟩
      · rw [if_neg hb] at h
        cases h1 : prune_batch o (find_nodes_at_distance o (d + 1) g.nodes g) g lv with
        | error e =>
            rw [h1, exbind_err] at h
            exact absurd h (fun hh => Except.noConfusion hh)
        | ok p =>
            obtain ⟨gm, lvm⟩ := p
            rw [h1, exbind_ok] at h
            have hbf : layer_has_uniprot g o (d + 1) = false := by
              cases hq : layer_has_uniprot g o (d + 1)
              · rfl
              · exact absurd hq hb
            obtain ⟨dx, hdx, hdxt⟩ := hex
            have hdxd : dx ≤ d := by
              rcases Nat.lt_or_ge dx (d + 1) with hlt | hge
              · omega
              · exfalso
                have : dx = d + 1 := by omega
                rw [this, hbf] at hdxt
                exact Bool.noConfusion hdxt
            have hexm : ∃ dd, dd ≤ d ∧ layer_has_uniprot gm o dd = true :=
              ⟨dx, hdxd, by
                rw [prune_batch_layer_key h1 dx (by omega)]
                exact hdxt⟩
            obtain ⟨hs1, hs2, hs3, hs4⟩ := ih hexm h
            obtain ⟨hl, hu⟩ := prune_batch_attrs h1
            have hd2g : layer_has_uniprot g o d2 = true := by
              rw [← prune_batch_layer_key h1 d2 (by omega)]
              exact hs1
            refine ⟨hd2g, by omega, fun e he1 he2 => ?_, fun m hm k hk hlt => ?_⟩
            · rcases Nat.lt_or_ge e (d + 1) with helt | hege
              · rw [← prune_batch_layer_key h1 e (by omega)]
                exact hs3 e he1 (by omega)
              · have : e = d + 1 := by omega
                rw [this]
                exact hbf
            · have hmm : m ∈ gm.nodes :=
                prune_batch_keeps_other_layers h1 m hm k hk (by omega)
              exact hs4 m hmm k (by rw [layerOf_eq_of_layers hl]; exact hk) hlt

/-- C4 as amended: scanning from the maximum distance toward the root, the
outer-layer pruner stops at the first layer containing a node that carries
the UniprotID key — a real annotation or a sentinel — records that layer
as the returned effective maximum, and never removes a node whose layer is
strictly below it; the layers between the stopping layer and the maximum
carry no key. -/
theorem c4_outer_pruner_stop_layer (ontology : String) (g : PyGraph) (max_dst : Nat)
    (leaves : List Node) (g2 : PyGraph) (lv2 : List Node) (d2 : Nat)
    (hex : ∃ d, d ≤ max_dst ∧ layer_has_uniprot g ontology d = true)
    (h : prune_layers_without_uniprot ontology g max_dst leaves = Except.ok (g2, lv2, d2)) :
    layer_has_uniprot g ontology d2 = true ∧ d2 ≤ max_dst ∧
      (∀ e, d2 < e → e ≤ max_dst → layer_has_uniprot g ontology e = false) ∧
      (∀ m ∈ g.nodes, ∀ k, g.layerOf ontology m = some k → k < d2 → m ∈ g2.nodes) :=
  pruneFrom_stop hex h

/-- Witness for C4 at a concrete input: on c4g the pruner stops at layer 1
and keeps the layer-0 root. -/
theorem c4_outer_pruner_stop_layer_witness :
    ((∃ d, d ≤ 2 ∧ layer_has_uniprot c4g "O" d = true) ∧
      prune_layers_without_uniprot "O" c4g 2 [] = Except.ok (c4res, ["x"], 1)) ∧
    (layer_has_uniprot c4g "O" 1 = true ∧ 1 ≤ 2 ∧
      (∀ e, 1 < e → e ≤ 2 → layer_has_uniprot c4g "O" e = false) ∧
      (∀ m ∈ c4g.nodes, ∀ k, c4g.layerOf "O" m = some k → k < 1 → m ∈ c4res.nodes)) :=
  ⟨⟨⟨1, by decide, by decide⟩, rfl⟩,
   c4_outer_pruner_stop_layer "O" c4g 2 [] c4res ["x"] 1 ⟨1, by decide, by decide⟩ rfl⟩

/-! ## A category without annotations prunes to the empty graph -/

theorem add_leaf_step_ok {o : String} {g : PyGraph} {lv : List Node} {m : Node}
    {lv1 : List Node} (h : add_leaf_step o g lv m = Except.ok lv1) :
    lv1 = lv ∨ (m ∉ lv ∧ lv1 = lv ++ [m]) := by
  rw [add_leaf_step] at h
  by_cases hm : m ∈ lv
  · rw [if_pos hm] at h
    exact Or.inl (Except.ok.inj h).symm
  · rw [if_neg hm] at h
    cases hn : no_lower_layer_edge m o g with
    | error e =>
        rw [hn, exbind_err] at h
        exact absurd h (fun hh => Except.noConfusion hh)
    | ok b =>
        rw [hn, exbind_ok] at h
        cases b
        · rw [if_neg (by simp)] at h
          exact Or.inl (Except.ok.inj h).symm
        · rw [if_pos rfl] at h
          exact Or.inr ⟨hm, (Except.ok.inj h).symm⟩

theorem add_fold_props {o : String} {g : PyGraph} :
    ∀ {ms : List Node} {lv lv' : List Node},
      ms.foldlM (add_leaf_step o g) lv = Except.ok lv' →
      (∀ x ∈ lv', x ∈ lv ∨ x ∈ ms) ∧ (lv.Nodup → lv'.Nodup) := by
  intro ms
  induction ms with
  | nil =>
      intro lv lv' h
      rw [List.foldlM_nil] at h
      obtain rfl := Except.ok.inj h
      exact ⟨fun x hx => Or.inl hx, fun hnd => hnd⟩
  | cons m rest ih =>
      intro lv lv' h
      rw [List.foldlM_cons] at h
      cases h1 : add_leaf_step o g lv m with
      | error e =>
          rw [h1, exbind_err] at h
          exact absurd h (fun hh => Except.noConfusion hh)
      | ok lv1 =>
          rw [h1, exbind_ok] at h
          obtain ⟨hmem, hnd⟩ := ih h
          rcases add_leaf_step_ok h1 with h2 | ⟨hm, h2⟩ <;> subst h2
          · exact ⟨fun x hx => (hmem x hx).imp id (List.mem_cons_of_mem m),
              fun hd => hnd hd⟩
          · refine ⟨fun x hx => ?_, fun hd => hnd (by simp [List.nodup_append, hd, hm])⟩
            rcases hmem x hx with hx1 | hx2
            · rcases List.mem_append.mp hx1 with hx3 | hx4
              · exact Or.inl hx3
              · exact Or.inr (List.mem_singleton.mp hx4 ▸ List.mem_cons_self m rest)
            · exact Or.inr (List.mem_cons_of_mem m hx2)

theorem add_leaves_props {lv : List Node} {n : Node} {o : String} {g : PyGraph}
    {lv' : List Node} (h : add_leaves lv n o g = Except.ok lv') :
    (∀ x ∈ lv', x ∈ lv ∨ x ∈ g.succs n ∨ x ∈ g.preds n) ∧ (lv.Nodup → lv'.Nodup) := by
  rw [add_leaves] at h
  cases h1 : (g.succs n).foldlM (add_leaf_step o g) lv with
  | error e =>
      rw [h1, exbind_err] at h
      exact absurd h (fun hh => Except.noConfusion hh)
  | ok l1 =>
      rw [h1, exbind_ok] at h
      obtain ⟨hm1, hn1⟩ := add_fold_props h1
      obtain ⟨hm2, hn2⟩ := add_fold_props h
      refine ⟨fun x hx => ?_, fun hd => hn2 (hn1 hd)⟩
      rcases hm2 x hx with hx1 | hx2
      · rcases hm1 x hx1 with hy1 | hy2
        · exact Or.inl hy1
        · exact Or.inr (Or.inl hy2)
      · exact Or.inr (Or.inr hx2)

theorem prune_node_step_inv {o : String} {g : PyGraph} {lv : List Node} {n : Node}
    {gm : PyGraph} {lvm : List Node} (hwf : g.wf) (hnd : lv.Nodup)
    (hsub : ∀ x ∈ lv, x ∈ g.nodes)
    (h : prune_node_step o (g, lv) n = Except.ok (gm, lvm)) :
    gm = g.removeNode n ∧ lvm.Nodup ∧ ∀ x ∈ lvm, x ∈ gm.nodes := by
  obtain ⟨hgm, lv', hadd, hlvm⟩ := prune_node_step_ok h
  obtain ⟨hmem, hnod⟩ := add_leaves_props hadd
  have hnd' : lv'.Nodup := hnod hnd
  have hsub' : ∀ x ∈ lv', x ∈ g.nodes := by
    intro x hx
    rcases hmem x hx with hx1 | hx2 | hx3
    · exact hsub x hx1
    · exact mem_succs hwf hx2
    · exact mem_preds hwf hx3
  refine ⟨hgm, ?_, ?_⟩
  · rw [hlvm]
    split
    · exact hnd'.erase n
    · exact hnd'
  · intro x hx
    rw [hlvm] at hx
    rw [hgm, mem_removeNode]
    by_cases hn : n ∈ lv'
    · rw [if_pos hn] at hx
      obtain ⟨hne, hxl⟩ := (List.Nodup.mem_erase_iff hnd').mp hx
      exact ⟨hsub' x hxl, hne⟩
    · rw [if_neg hn] at hx
      exact ⟨hsub' x hx, fun hEq => hn (hEq ▸ hx)⟩

theorem prune_batch_inv {o : String} :
    ∀ {ns : List Node} {g : PyGraph} {lv : List Node} {g2 : PyGraph} {lv2 : List Node},
      g.wf → lv.Nodup → (∀ x ∈ lv, x ∈ g.nodes) →
      prune_batch o ns g lv = Except.ok (g2, lv2) →
      lv2.Nodup ∧ ∀ x ∈ lv2, x ∈ g2.nodes := by
  intro ns
  induction ns with
  | nil =>
      intro g lv g2 lv2 hwf hnd hsub h
      rw [prune_batch, List.foldlM_nil] at h
      have h2 := Except.ok.inj h
      cases h2
      exact ⟨hnd, hsub⟩
  | cons n rest ih =>
      intro g lv g2 lv2 hwf hnd hsub h
      rw [prune_batch, List.foldlM_cons] at h
      cases h1 : prune_node_step o (g, lv) n with
      | error e =>
          rw [h1, exbind_err] at h
          exact absurd h (fun hh => Except.noConfusion hh)
      | ok p =>
          obtain ⟨gm, lvm⟩ := p
          rw [h1, exbind_ok] at h
          obtain ⟨hgm, hnd2, hsub2⟩ := prune_node_step_inv hwf hnd hsub h1
          exact ih (hgm ▸ removeNode_wf n hwf) hnd2 hsub2
            (show prune_batch o rest gm lvm = _ from h)

theorem uniprot_id_in_layer_of_unkeyed {ns : List Node} {g : PyGraph}
    (h : ∀ m ∈ ns, g.uniOf m = none) : uniprot_id_in_layer ns g = false := by
  cases hq : uniprot_id_in_layer ns g
  · rfl
  · obtain ⟨m, hm, hk⟩ := uniprot_id_in_layer_true_iff.mp hq
    rw [h m hm] at hk
    exact Bool.noConfusion hk

theorem pruneFrom_no_keys {o : String} {M : Nat} :
    ∀ {dst : Nat} {g : PyGraph} {lv : List Node} {g2 : PyGraph} {lv2 : List Node} {d2 : Nat},
      g.wf → (∀ m ∈ g.nodes, g.uniOf m = none) →
      (∀ m ∈ g.nodes, ∃ k, k ≤ dst ∧ g.layerOf o m = some k) →
      lv.Nodup → (∀ x ∈ lv, x ∈ g.nodes) →
      pruneFrom o M dst g lv = Except.ok (g2, lv2, d2) →
      g2.nodes = [] ∧ lv2 = [] ∧ d2 = M := by
  intro dst
  induction dst with
  | zero =>
      intro g lv g2 lv2 d2 hwf hkeys hlay hnd hsub h
      rw [pruneFrom] at h
      have hbf : uniprot_id_in_layer (find_nodes_at_distance o 0 g.nodes g) g = false :=
        uniprot_id_in_layer_of_unkeyed (fun m hm => hkeys m (mem_find_nodes.mp hm).1)
      rw [if_neg (by simp [hbf])] at h
      cases h1 : prune_batch o (find_nodes_at_distance o 0 g.nodes g) g lv with
      | error e =>
          rw [h1, exbind_err] at h
          exact absurd h (fun hh => Except.noConfusion hh)
      | ok p =>
          obtain ⟨gm, lvm⟩ := p
          rw [h1, exbind_ok] at h
          have hempty : gm.nodes = [] := by
            rw [List.eq_nil_iff_forall_not_mem]
            intro m hm
            obtain ⟨hmg, hns⟩ := (prune_batch_nodes h1 m).mp hm
            obtain ⟨k, hk0, hkl⟩ := hlay m hmg
            have : k = 0 := Nat.le_zero.mp hk0
            subst this
            exact hns (mem_find_nodes.mpr ⟨hmg, hmg, hkl⟩)
          obtain ⟨-, hsub2⟩ := prune_batch_inv hwf hnd hsub h1
          have hlvm : lvm = [] := by
            rw [List.eq_nil_iff_forall_not_mem]
            intro x hx
            have := hsub2 x hx
            rw [hempty] at this
            exact List.not_mem_nil x this
          have h2 := Except.ok.inj h
          cases h2
          exact ⟨hempty, hlvm, rfl⟩
  | succ d ih =>
      intro g lv g2 lv2 d2 hwf hkeys hlay hnd hsub h
      rw [pruneFrom] at h
      have hbf : uniprot_id_in_layer (find_nodes_at_distance o (d + 1) g.nodes g) g = false :=
        uniprot_id_in_layer_of_unkeyed (fun m hm => hkeys m (mem_find_nodes.mp hm).1)
      rw [if_neg (by simp [hbf])] at h
      cases h1 : prune_batch o (find_nodes_at_distance o (d + 1) g.nodes g) g lv with
      | error e =>
          rw [h1, exbind_err] at h
          exact absurd h (fun hh => Except.noConfusion hh)
      | ok p =>
          obtain ⟨gm, lvm⟩ := p
          rw [h1, exbind_ok] at h
          obtain ⟨hl, hu⟩ := prune_batch_attrs h1
          obtain ⟨hnd2, hsub2⟩ := prune_batch_inv hwf hnd hsub h1
          refine ih (prune_batch_wf h1 hwf) ?_ ?_ hnd2 hsub2 h
          · intro m hm
            rw [uniOf_eq_of_uniprot hu]
            exact hkeys m ((prune_batch_nodes h1 m).mp hm).1
          · intro m hm
            obtain ⟨hmg, hns⟩ := (prune_batch_nodes h1 m).mp hm
            obtain ⟨k, hkd, hkl⟩ := hlay m hmg
            have hkne : k ≠ d + 1 := by
              intro hEq
              exact hns (mem_find_nodes.mpr ⟨hmg, hmg, hEq ▸ hkl⟩)
            exact ⟨k, by omega, by rw [layerOf_eq_of_layers hl]; exact hkl⟩

theorem clean_layer_loop_empty_leaves {o : String} :
    ∀ {fuel dst : Nat} {g rg : PyGraph} {g2 : PyGraph} {l2 : List Node},
      clean_layer_loop o fuel dst [] g rg = Except.ok (some (g2, l2)) →
      g2 = g ∧ l2 = [] := by
  intro fuel
  induction fuel with
  | zero =>
      intro dst g rg g2 l2 h
      have h2 := Except.ok.inj h
      exact absurd h2 (fun hh => Option.noConfusion hh)
  | succ f ih =>
      intro dst g rg g2 l2 h
      match dst with
      | 0 =>
          have h2 := Except.ok.inj h
          have h3 := Option.some.inj h2
          cases h3
          exact ⟨rfl, rfl⟩
      | d + 1 =>
          rw [clean_layer_loop] at h
          have hp : process_leaves
              (removable_at (find_nodes_at_distance o (d + 1) ([] : List Node) g) g)
              [] o (d + 1) g rg = Except.ok ([], d, g, rg) := rfl
          rw [hp, exbind_ok] at h
          exact ih h

/-- C3 as amended: a category whose working subgraph carries no UniprotID
key anywhere is pruned to the empty graph — the root is removed along with
every other layer — the leaf list empties, and the returned max-layer
value is the unchanged input maximum, not 0; the subsequent leaf pruner
returns the empty graph and empty leaf list unchanged. -/
theorem c3_no_annot_prunes_to_empty (ontology : String) (g : PyGraph) (max_dst : Nat)
    (leaves : List Node) (g1 : PyGraph) (l1 : List Node) (d1 : Nat)
    (hwf : g.wf)
    (hkeys : ∀ m ∈ g.nodes, g.uniOf m = none)
    (hlay : ∀ m ∈ g.nodes, ∃ k, k ≤ max_dst ∧ g.layerOf ontology m = some k)
    (hnd : leaves.Nodup) (hsub : ∀ x ∈ leaves, x ∈ g.nodes)
    (h1 : prune_layers_without_uniprot ontology g max_dst leaves = Except.ok (g1, l1, d1)) :
    g1.nodes = [] ∧ l1 = [] ∧ d1 = max_dst ∧
      ∀ fuel g2 l2, clean_graph_layer fuel ontology l1 d1 g1 g1.reverse =
          Except.ok (some (g2, l2)) → g2.nodes = [] ∧ l2 = [] := by
  obtain ⟨he, hl, hd⟩ := pruneFrom_no_keys hwf hkeys hlay hnd hsub h1
  refine ⟨he, hl, hd, fun fuel g2 l2 h2 => ?_⟩
  subst hl
  obtain ⟨hg, hl2⟩ := clean_layer_loop_empty_leaves h2
  exact ⟨hg ▸ he, hl2⟩

/-- Witness for C3 as amended at the concrete two-node category. -/
theorem c3_no_annot_prunes_to_empty_witness :
    (c3g.wf ∧ (∀ m ∈ c3g.nodes, c3g.uniOf m = none) ∧
      (∀ m ∈ c3g.nodes, ∃ k, k ≤ 1 ∧ c3g.layerOf "O" m = some k) ∧
      (["a"] : List Node).Nodup ∧ (∀ x ∈ (["a"] : List Node), x ∈ c3g.nodes) ∧
      prune_layers_without_uniprot "O" c3g 1 ["a"] = Except.ok (c3pruned, [], 1)) ∧
    (c3pruned.nodes = [] ∧ ([] : List Node) = [] ∧ (1 : Nat) = 1 ∧
      ∀ fuel g2 l2, clean_graph_layer fuel "O" [] 1 c3pruned c3pruned.reverse =
          Except.ok (some (g2, l2)) → g2.nodes = [] ∧ l2 = []) :=
  ⟨⟨(by decide : ∀ e ∈ c3g.edges, e.1 ∈ c3g.nodes ∧ e.2 ∈ c3g.nodes), by decide,
     by decide, by decide, by decide, rfl⟩,
   c3_no_annot_prunes_to_empty "O" c3g 1 ["a"] c3pruned [] 1
     (by decide : ∀ e ∈ c3g.edges, e.1 ∈ c3g.nodes ∧ e.2 ∈ c3g.nodes) (by decide)
     (by decide) (by decide) (by decide) rfl⟩

/-! ## Characterization of the leaf-frontier promotion check -/

theorem nlleAux_true_iff {g : PyGraph} {o : String} {n : Node}
    (hn : (g.layerOf o n).isSome) :
    ∀ {l : List Node}, (∀ p ∈ l, (g.layerOf o p).isSome) →
      (nlleAux g o n l = Except.ok true ↔
        ∀ p ∈ l, ∀ a b, g.layerOf o n = some a → g.layerOf o p = some b → a < b) := by
  intro l
  induction l with
  | nil =>
      intro hl
      constructor
      · intro h p hp
        exact absurd hp (List.not_mem_nil p)
      · intro h
        rfl
  | cons p rest ih =>
      intro hl
      obtain ⟨a, ha⟩ := Option.isSome_iff_exists.mp hn
      obtain ⟨b, hb⟩ := Option.isSome_iff_exists.mp (hl p (List.mem_cons_self p rest))
      have hstep : nlleAux g o n (p :: rest) =
          if a ≥ b then pure false else nlleAux g o n rest := by
        rw [nlleAux, ha, hb]
      rw [hstep]
      by_cases hab : a ≥ b
      · rw [if_pos hab]
        constructor
        · intro h
          exact absurd h (fun hh =>
            Bool.noConfusion (Except.ok.inj hh))
        · intro h
          have := h p (List.mem_cons_self p rest) a b ha hb
          omega
      · rw [if_neg hab]
        rw [ih (fun q hq => hl q (List.mem_cons_of_mem p hq))]
        constructor
        · intro h q hq a2 b2 ha2 hb2
          rcases List.mem_cons.mp hq with rfl | hq2
          · rw [ha] at ha2
            rw [hb] at hb2
            obtain rfl := Option.some.inj ha2
            obtain rfl := Option.some.inj hb2
            omega
          · exact h q hq2 a2 b2 ha2 hb2
        · intro h q hq a2 b2 ha2 hb2
          exact h q (List.mem_cons_of_mem p hq) a2 b2 ha2 hb2

theorem nlle_ok_true_iff {x : Node} {o : String} {g : PyGraph}
    (hx : (g.layerOf o x).isSome) (hp : ∀ p ∈ g.preds x, (g.layerOf o p).isSome) :
    (no_lower_layer_edge x o g = Except.ok true ↔
      ∀ p ∈ g.preds x, ∀ a b, g.layerOf o x = some a → g.layerOf o p = some b → a < b) :=
  nlleAux_true_iff hx hp

theorem add_leaf_step_cases {o : String} {g : PyGraph} {lv : List Node} {m : Node}
    {lv1 : List Node} (h : add_leaf_step o g lv m = Except.ok lv1) :
    (m ∈ lv ∧ lv1 = lv) ∨
    (m ∉ lv ∧ no_lower_layer_edge m o g = Except.ok true ∧ lv1 = lv ++ [m]) ∨
    (m ∉ lv ∧ no_lower_layer_edge m o g = Except.ok false ∧ lv1 = lv) := by
  rw [add_leaf_step] at h
  by_cases hm : m ∈ lv
  · rw [if_pos hm] at h
    exact Or.inl ⟨hm, (Except.ok.inj h).symm⟩
  · rw [if_neg hm] at h
    cases hn : no_lower_layer_edge m o g with
    | error e =>
        rw [hn, exbind_err] at h
        exact absurd h (fun hh => Except.noConfusion hh)
    | ok b =>
        rw [hn, exbind_ok] at h
        cases b
        · rw [if_neg (by simp)] at h
          exact Or.inr (Or.inr ⟨hm, rfl, (Except.ok.inj h).symm⟩)
        · rw [if_pos rfl] at h
          exact Or.inr (Or.inl ⟨hm, rfl, (Except.ok.inj h).symm⟩)

theorem add_fold_mem_iff {o : String} {g : PyGraph} :
    ∀ {ms lv lv' : List Node},
      ms.foldlM (add_leaf_step o g) lv = Except.ok lv' →
      ∀ x, x ∈ lv' ↔ x ∈ lv ∨ (x ∈ ms ∧ no_lower_layer_edge x o g = Except.ok true) := by
  intro ms
  induction ms with
  | nil =>
      intro lv lv' h x
      rw [List.foldlM_nil] at h
      obtain rfl := Except.ok.inj h
      simp
  | cons m rest ih =>
      intro lv lv' h x
      rw [List.foldlM_cons] at h
      cases h1 : add_leaf_step o g lv m with
      | error e =>
          rw [h1, exbind_err] at h
          exact absurd h (fun hh => Except.noConfusion hh)
      | ok lv1 =>
          rw [h1, exbind_ok] at h
          rw [ih h x]
          rcases add_leaf_step_cases h1 with ⟨hm, rfl⟩ | ⟨hm, hcond, rfl⟩ | ⟨hm, hcond, rfl⟩
          · constructor
            · rintro (hx | ⟨hx1, hx2⟩)
              · exact Or.inl hx
              · exact Or.inr ⟨List.mem_cons_of_mem m hx1, hx2⟩
            · rintro (hx | ⟨hx1, hx2⟩)
              · exact Or.inl hx
              · rcases List.mem_cons.mp hx1 with rfl | hx3
                · exact Or.inl hm
                · exact Or.inr ⟨hx3, hx2⟩
          · constructor
            · rintro (hx | ⟨hx1, hx2⟩)
              · rcases List.mem_append.mp hx with hx3 | hx4
                · exact Or.inl hx3
                · obtain rfl := List.mem_singleton.mp hx4
                  exact Or.inr ⟨List.mem_cons_self x rest, hcond⟩
              · exact Or.inr ⟨List.mem_cons_of_mem m hx1, hx2⟩
            · rintro (hx | ⟨hx1, hx2⟩)
              · exact Or.inl (List.mem_append.mpr (Or.inl hx))
              · rcases List.mem_cons.mp hx1 with rfl | hx3
                · exact Or.inl (List.mem_append.mpr (Or.inr (List.mem_singleton.mpr rfl)))
                · exact Or.inr ⟨hx3, hx2⟩
          · constructor
            · rintro (hx | ⟨hx1, hx2⟩)
              · exact Or.inl hx
              · exact Or.inr ⟨List.mem_cons_of_mem m hx1, hx2⟩
            · rintro (hx | ⟨hx1, hx2⟩)
              · exact Or.inl hx
              · rcases List.mem_cons.mp hx1 with rfl | hx3
                · rw [hcond] at hx2
                  exact absurd (Except.ok.inj hx2) (fun hh => Bool.noConfusion hh)
                · exact Or.inr ⟨hx3, hx2⟩

theorem add_leaves_mem_iff {leaves : List Node} {node : Node} {o : String} {g : PyGraph}
    {lv' : List Node} (h : add_leaves leaves node o g = Except.ok lv') :
    ∀ x, x ∈ lv' ↔ x ∈ leaves ∨
      ((x ∈ g.succs node ∨ x ∈ g.preds node) ∧
        no_lower_layer_edge x o g = Except.ok true) := by
  rw [add_leaves] at h
  cases h1 : (g.succs node).foldlM (add_leaf_step o g) leaves with
  | error e =>
      rw [h1, exbind_err] at h
      exact absurd h (fun hh => Except.noConfusion hh)
  | ok l1 =>
      rw [h1, exbind_ok] at h
      intro x
      rw [add_fold_mem_iff h x, add_fold_mem_iff h1 x]
      tauto

/-- C7 as amended: when the pruner deletes a node, a neighbor (in either
edge direction) joins the leaf frontier if and only if it is not already
tracked and every one of its incoming edges originates at a strictly
greater layer — an edge from a lower or an equal layer both block the
promotion, not only a strictly lower one. -/
theorem c7_add_leaves_characterization (leaves : List Node) (node : Node) (ontology : String)
    (g : PyGraph) (lv' : List Node)
    (hok : add_leaves leaves node ontology g = Except.ok lv') :
    (∀ x, x ∈ lv' ↔ x ∈ leaves ∨
       ((x ∈ g.succs node ∨ x ∈ g.preds node) ∧
         no_lower_layer_edge x ontology g = Except.ok true)) ∧
    (∀ x, (g.layerOf ontology x).isSome →
       (∀ p ∈ g.preds x, (g.layerOf ontology p).isSome) →
       (no_lower_layer_edge x ontology g = Except.ok true ↔
         ∀ p ∈ g.preds x, ∀ a b, g.layerOf ontology x = some a →
           g.layerOf ontology p = some b → a < b)) :=
  ⟨add_leaves_mem_iff hok, fun _ hx hp => nlle_ok_true_iff hx hp⟩

/-- Witness for C7 as amended at the concrete graph c7g. -/
theorem c7_add_leaves_characterization_witness :
    add_leaves [] "n" "O" c7g = Except.ok [] ∧
    ((∀ x, x ∈ ([] : List Node) ↔ x ∈ ([] : List Node) ∨
       ((x ∈ c7g.succs "n" ∨ x ∈ c7g.preds "n") ∧
         no_lower_layer_edge x "O" c7g = Except.ok true)) ∧
     (∀ x, (c7g.layerOf "O" x).isSome →
       (∀ p ∈ c7g.preds x, (c7g.layerOf "O" p).isSome) →
       (no_lower_layer_edge x "O" c7g = Except.ok true ↔
         ∀ p ∈ c7g.preds x, ∀ a b, c7g.layerOf "O" x = some a →
           c7g.layerOf "O" p = some b → a < b))) :=
  ⟨rfl, c7_add_leaves_characterization [] "n" "O" c7g [] rfl⟩

/-! ## The farthest-node traversal -/

theorem ffold_error {o : String} {s : Node} {g : PyGraph} :
    ∀ (es : List (Node × Node)) (x : PyErr),
      es.foldl (farthest_step o s g) (Except.error x) = Except.error x := by
  intro es
  induction es with
  | nil => intro x; rfl
  | cons e rest ih => intro x; exact ih x

theorem ffold_main (o : String) (s : Node) (g : PyGraph) :
    ∀ (es : List (Node × Node)) (f : Node) (lf : Nat), g.layerOf o f = some lf →
      ((es.foldl (farthest_step o s g) (Except.ok f) = Except.error (PyErr.dfs s o)) ↔
          ∃ e ∈ es, g.layerOf o e.2 = none) ∧
      (∀ r, es.foldl (farthest_step o s g) (Except.ok f) = Except.ok r →
          (r = f ∨ ∃ e ∈ es, e.2 = r) ∧
          ∃ lr, g.layerOf o r = some lr ∧ lf ≤ lr ∧
            ∀ e ∈ es, ∀ lx, g.layerOf o e.2 = some lx → lx ≤ lr) ∧
      es.foldl (farthest_step o s g) (Except.ok f) ≠ Except.error PyErr.keyError := by
  intro es
  induction es with
  | nil =>
      intro f lf hf
      refine ⟨?_, ?_, ?_⟩
      · simp only [List.foldl_nil]
        constructor
        · intro h
          exact absurd h (ex_ok_ne_error _ _)
        · rintro ⟨e, he, -⟩
          exact absurd he (List.not_mem_nil e)
      · intro r h
        simp only [List.foldl_nil] at h
        obtain rfl := Except.ok.inj h
        exact ⟨Or.inl rfl, lf, hf, Nat.le_refl lf,
          fun e he => absurd he (List.not_mem_nil e)⟩
      · simp only [List.foldl_nil]
        exact ex_ok_ne_error _ _
  | cons e rest ih =>
      intro f lf hf
      have hstep : farthest_step o s g (Except.ok f) e =
          match g.layerOf o e.2 with
          | none => Except.error (PyErr.dfs s o)
          | some lt =>
            match g.layerOf o f with
            | none => Except.error PyErr.keyError
            | some lf2 => pure (if lt > lf2 then e.2 else f) := rfl
      cases hlt : g.layerOf o e.2 with
      | none =>
          have hstep2 : farthest_step o s g (Except.ok f) e =
              Except.error (PyErr.dfs s o) := by rw [hstep, hlt]
          refine ⟨?_, ?_, ?_⟩
          · rw [List.foldl_cons, hstep2, ffold_error]
            exact ⟨fun _ => ⟨e, List.mem_cons_self e rest, hlt⟩, fun _ => rfl⟩
          · intro r h
            rw [List.foldl_cons, hstep2, ffold_error] at h
            exact absurd h.symm (ex_ok_ne_error _ _)
          · rw [List.foldl_cons, hstep2, ffold_error]
            intro h
            exact PyErr.noConfusion ((Except.error.injEq _ _).mp h)
      | some lt =>
          have hstep2 : farthest_step o s g (Except.ok f) e =
              Except.ok (if lt > lf then e.2 else f) := by
            rw [hstep, hlt, hf]
            rfl
          set f2 := if lt > lf then e.2 else f with hf2def
          have hlf2 : g.layerOf o f2 = some (if lt > lf then lt else lf) := by
            rw [hf2def]
            by_cases hc : lt > lf
            · rw [if_pos hc, if_pos hc]; exact hlt
            · rw [if_neg hc, if_neg hc]; exact hf
          obtain ⟨ih1, ih2, ih3⟩ := ih f2 (if lt > lf then lt else lf) hlf2
          refine ⟨?_, ?_, ?_⟩
          · rw [List.foldl_cons, hstep2]
            rw [ih1]
            constructor
            · rintro ⟨e2, he2, hn2⟩
              exact ⟨e2, List.mem_cons_of_mem e he2, hn2⟩
            · rintro ⟨e2, he2, hn2⟩
              rcases List.mem_cons.mp he2 with rfl | he3
              · rw [hlt] at hn2
                exact absurd hn2 (fun hh => Option.noConfusion hh)
              · exact ⟨e2, he3, hn2⟩
          · intro r h
            rw [List.foldl_cons, hstep2] at h
            obtain ⟨hr1, lr, hr2, hr3, hr4⟩ := ih2 r h
            refine ⟨?_, lr, hr2, ?_, ?_⟩
            · rcases hr1 with rfl | ⟨e2, he2, he3⟩
              · rw [hf2def]
                by_cases hc : lt > lf
                · rw [if_pos hc]
                  exact Or.inr ⟨e, List.mem_cons_self e rest, rfl⟩
                · rw [if_neg hc]
                  exact Or.inl rfl
              · exact Or.inr ⟨e2, List.mem_cons_of_mem e he2, he3⟩
            · refine Nat.le_trans ?_ hr3
              by_cases hc : lt > lf
              · rw [if_pos hc]; omega
              · rw [if_neg hc]
            · intro e2 he2 lx hlx
              rcases List.mem_cons.mp he2 with rfl | he3
              · rw [hlt] at hlx
                obtain rfl := Option.some.inj hlx
                refine Nat.le_trans ?_ hr3
                by_cases hc : lt > lf
                · rw [if_pos hc]
                · rw [if_neg hc]; omega
              · exact hr4 e2 he3 lx hlx
          · rw [List.foldl_cons, hstep2]
            exact ih3

/-- C2 as amended: provided the start node carries the layer attribute for
the ontology, find_farthest_node raises the disconnection signal — and it
carries exactly the start node and the ontology — if and only if some
target visited by the edge depth-first traversal lacks the layer attribute;
otherwise it returns a node that is the start node or a visited target and
whose layer is maximal among the start node and all visited targets.  The
plain KeyError is impossible under this proviso. -/
theorem c2_farthest_node_characterization (ontology : String) (start_node : Node)
    (graph : PyGraph) (l0 : Nat)
    (hst : graph.layerOf ontology start_node = some l0) :
    ((find_farthest_node ontology start_node graph =
        Except.error (PyErr.dfs start_node ontology)) ↔
      ∃ e ∈ edgeDfs graph start_node, graph.layerOf ontology e.2 = none) ∧
    (∀ r, find_farthest_node ontology start_node graph = Except.ok r →
      (r = start_node ∨ ∃ e ∈ edgeDfs graph start_node, e.2 = r) ∧
      ∃ lr, graph.layerOf ontology r = some lr ∧ l0 ≤ lr ∧
        ∀ e ∈ edgeDfs graph start_node, ∀ lx,
          graph.layerOf ontology e.2 = some lx → lx ≤ lr) ∧
    find_farthest_node ontology start_node graph ≠ Except.error PyErr.keyError := by
  obtain ⟨h1, h2, h3⟩ := ffold_main ontology start_node graph
    (edgeDfs graph start_node) start_node l0 hst
  exact ⟨h1, h2, h3⟩

/-- Witness for C2 as amended at the concrete two-node graph c6g. -/
theorem c2_farthest_node_characterization_witness :
    c6g.layerOf "O" "A" = some 1 ∧
    (((find_farthest_node "O" "A" c6g = Except.error (PyErr.dfs "A" "O")) ↔
        ∃ e ∈ edgeDfs c6g "A", c6g.layerOf "O" e.2 = none) ∧
      (∀ r, find_farthest_node "O" "A" c6g = Except.ok r →
        (r = "A" ∨ ∃ e ∈ edgeDfs c6g "A", e.2 = r) ∧
        ∃ lr, c6g.layerOf "O" r = some lr ∧ 1 ≤ lr ∧
          ∀ e ∈ edgeDfs c6g "A", ∀ lx, c6g.layerOf "O" e.2 = some lx → lx ≤ lr) ∧
      find_farthest_node "O" "A" c6g ≠ Except.error PyErr.keyError) :=
  ⟨rfl, c2_farthest_node_characterization "O" "A" c6g 1 rfl⟩

/-! ## Promotion rule of process_leaves -/

theorem to_remove_iff {rm ns : List Node} {leaf : Node} :
    to_remove rm ns leaf = true ↔ ∀ p ∈ ns, p ∈ rm ∨ p = leaf := by
  simp [to_remove, List.all_eq_true]

/-- C5: a neighbor of the popped leaf with more than one incoming edge is
promoted to the leaf list only when it is not tracked already and every
one of its referencing nodes is the popped leaf or sits in the removable
set; a neighbor with at most one incoming edge is promoted
unconditionally. -/
theorem c5_shared_ancestor_promotion (removable : List Node) (leaf : Node)
    (ontology : String) (g rg : PyGraph) (neighbor : Node)
    (leaves : List Node) (updated : Bool) (dst : Nat)
    (leaves2 : List Node) (u2 : Bool) (d2 : Nat)
    (hok : process_neighbor removable leaf ontology g rg (leaves, updated, dst) neighbor =
      Except.ok (leaves2, u2, d2)) :
    (g.inDegree neighbor > 1 →
      (leaves2 = leaves ++ [neighbor] ∨ leaves2 = leaves) ∧
      (leaves2 = leaves ++ [neighbor] →
        neighbor ∉ leaves ∧ to_remove removable (rg.succs neighbor) leaf = true ∧
        ∀ p ∈ rg.succs neighbor, p ∈ removable ∨ p = leaf)) ∧
    (¬ g.inDegree neighbor > 1 → leaves2 = leaves ++ [neighbor]) := by
  rw [process_neighbor] at hok
  by_cases hdeg : g.inDegree neighbor > 1
  · rw [if_pos hdeg] at hok
    refine ⟨fun _ => ?_, fun hn => absurd hdeg hn⟩
    by_cases hcond : (decide (neighbor ∉ leaves) &&
        to_remove removable (rg.succs neighbor) leaf) = true
    · rw [if_pos hcond] at hok
      have hcond2 : decide (neighbor ∉ leaves) = true ∧
          to_remove removable (rg.succs neighbor) leaf = true := by
        rwa [Bool.and_eq_true] at hcond
      obtain ⟨hm, ht⟩ := hcond2
      cases h1 : update_dst updated neighbor dst ontology g with
      | error e =>
          rw [h1, exbind_err] at hok
          exact absurd hok (fun hh => Except.noConfusion hh)
      | ok p =>
          obtain ⟨ua, da⟩ := p
          rw [h1, exbind_ok] at hok
          have h2 := Except.ok.inj hok
          cases h2
          exact ⟨Or.inl rfl,
            fun _ => ⟨of_decide_eq_true hm, ht, to_remove_iff.mp ht⟩⟩
    · rw [if_neg hcond] at hok
      have h2 := Except.ok.inj hok
      cases h2
      exact ⟨Or.inr rfl, fun hEq => absurd hEq.symm (by simp)⟩
  · rw [if_neg hdeg] at hok
    refine ⟨fun hd => absurd hd hdeg, fun _ => ?_⟩
    cases h1 : update_dst updated neighbor dst ontology g with
    | error e =>
        rw [h1, exbind_err] at hok
        exact absurd hok (fun hh => Except.noConfusion hh)
    | ok p =>
        obtain ⟨ua, da⟩ := p
        rw [h1, exbind_ok] at hok
        have h2 := Except.ok.inj hok
        cases h2
        rfl

/-- Witness for C5 at the concrete graph c5g: neighbor u has two incoming
edges and all its referencing nodes are the popped leaf or removable, so
it is promoted. -/
theorem c5_shared_ancestor_promotion_witness :
    process_neighbor ["q"] "leaf" "O" c5g c5g.reverse ([], false, 1) "u" =
      Except.ok (["u"], true, 1) ∧
    ((c5g.inDegree "u" > 1 →
       ((["u"] : List Node) = [] ++ ["u"] ∨ (["u"] : List Node) = []) ∧
       ((["u"] : List Node) = [] ++ ["u"] →
         "u" ∉ ([] : List Node) ∧ to_remove ["q"] (c5g.reverse.succs "u") "leaf" = true ∧
         ∀ p ∈ c5g.reverse.succs "u", p ∈ (["q"] : List Node) ∨ p = "leaf")) ∧
     (¬ c5g.inDegree "u" > 1 → (["u"] : List Node) = [] ++ ["u"])) :=
  ⟨rfl, c5_shared_ancestor_promotion ["q"] "leaf" "O" c5g c5g.reverse "u" [] false 1
    ["u"] true 1 rfl⟩

/-! ## Start condition of the boundary marker -/

/-- C6 as amended: the scan starts a traversal from a node exactly when,
at the moment the node is reached, it carries the layer attribute and a
UniprotID value different from the transit sentinel — a condition met by
real annotations and equally by boundary sentinels written earlier in the
same scan, which therefore also start traversals. -/
theorem c6_marker_start_condition (ontology : String) (g : PyGraph)
    (tr : List (String × Node)) (node : Node) (g2 : PyGraph) (tr2 : List (String × Node))
    (hok : mark_lowest_step ontology (g, tr) node = Except.ok (g2, tr2)) :
    (tr2 = tr ++ [(ontology, node)] ∨ tr2 = tr) ∧
    (tr2 = tr ++ [(ontology, node)] ↔
      (g.layerOf ontology node).isSome ∧
        ∃ v, g.uniOf node = some v ∧ v ≠ UniVal.transit) := by
  have hbool : ((g.layerOf ontology node).isSome &&
      (match g.uniOf node with
       | some v => decide (v ≠ UniVal.transit)
       | none => false)) = true ↔
      ((g.layerOf ontology node).isSome ∧
        ∃ v, g.uniOf node = some v ∧ v ≠ UniVal.transit) := by
    rw [Bool.and_eq_true]
    cases hu : g.uniOf node <;> simp [hu]
  rw [mark_lowest_step] at hok
  by_cases hcond : ((g.layerOf ontology node).isSome &&
      (match g.uniOf node with
       | some v => decide (v ≠ UniVal.transit)
       | none => false)) = true
  · rw [if_pos hcond] at hok
    cases h1 : find_farthest_node ontology node g with
    | error e =>
        rw [h1] at hok
        exact absurd hok (fun hh => Except.noConfusion hh)
    | ok far =>
        rw [h1] at hok
        have h2 := Except.ok.inj hok
        cases h2
        exact ⟨Or.inl rfl, ⟨fun _ => hbool.mp hcond, fun _ => rfl⟩⟩
  · rw [if_neg hcond] at hok
    have h2 := Except.ok.inj hok
    cases h2
    refine ⟨Or.inr rfl, ?_, ?_⟩
    · intro hEq
      exact absurd hEq.symm (by simp)
    · intro hprops
      exact absurd (hbool.mpr hprops) hcond

/-- Witness for C6 as amended: node A of c6g starts a traversal and is
recorded in the trace. -/
theorem c6_marker_start_condition_witness :
    mark_lowest_step "O" (c6g, []) "A" = Except.ok (c6marked, [("O", "A")]) ∧
    ((([("O", "A")] : List (String × Node)) = [] ++ [("O", "A")] ∨
        ([("O", "A")] : List (String × Node)) = []) ∧
      (([("O", "A")] : List (String × Node)) = [] ++ [("O", "A")] ↔
        (c6g.layerOf "O" "A").isSome ∧
          ∃ v, c6g.uniOf "A" = some v ∧ v ≠ UniVal.transit)) :=
  ⟨rfl, c6_marker_start_condition "O" c6g [] "A" c6marked [("O", "A")] rfl⟩

/-- C8 as amended: the orchestrator has no retry cap — each disconnection
signal triggers connect_pivot and a recursive re-invocation — and on the
exhibited three-node input no amount of retry fuel ever produces a result
or a fatal retry-bound error: the recursion runs forever. -/
theorem c8_unbounded_retry (n : Nat) :
    clean_ontology_graph c8u2g n 9 c8G0 ["GO1"] = none :=
  c8_diverges n

/-- C9: evaluation of the pipeline at the failing input.  The first run
keeps exactly the annotated root; rerunning the pipeline on that cleaned
graph with the same annotation map yields the empty node set, because
get_clean_graph rebuilds the working copy from the subgraph's edge list
and the edgeless bare-root graph contributes no node.  The real
annotation on R is silently lost by the second run. -/
theorem c9_rerun_drops_root :
    c9nodes1 = some ["R"] ∧
    c9g1.uniOf "R" = some (UniVal.ids ["U1"]) ∧
    c9nodes2 = some [] :=
  ⟨rfl, rfl, rfl⟩
